import Mathlib

/-!
Verification of the Convatile-SDK document conversion core against its
specification.  JavaScript strings are modelled as `List Char` and Node
`Buffer`s as `List Nat` (byte values).  Each definition is a direct
translation of the corresponding source function; doc comments name the
source file and symbol.
-/

/-- Characters treated as whitespace by the JavaScript `trim` / regex `\s`
class (the ASCII ones plus NBSP and the BOM; the exotic Unicode space
separators do not occur in any input considered here). -/
def jsWhitespaceChar (c : Char) : Bool :=
  c = ' ' || c = '\t' || c = '\n' || c = '\r' || c = '\u000B' || c = '\u000C' ||
  c = ' ' || c = '﻿'

/-- Model of `String.prototype.trim`: drop whitespace from both ends. -/
def jsTrim (l : List Char) : List Char :=
  ((l.dropWhile jsWhitespaceChar).reverse.dropWhile jsWhitespaceChar).reverse

/-- ASCII lower-casing of one character (model of `toLowerCase`). -/
def lowerChar (c : Char) : Char :=
  if 'A' ≤ c ∧ c ≤ 'Z' then Char.ofNat (c.toNat + 32) else c

/-- ASCII upper-casing of one character (model of `toUpperCase`). -/
def upperChar (c : Char) : Char :=
  if 'a' ≤ c ∧ c ≤ 'z' then Char.ofNat (c.toNat - 32) else c

/-- Model of `String.prototype.toLowerCase` (ASCII range). -/
def jsToLower (l : List Char) : List Char := l.map lowerChar

/-- Model of `String.prototype.toUpperCase` (ASCII range). -/
def jsToUpper (l : List Char) : List Char := l.map upperChar

/-- Does the first list occur as a prefix of the second? -/
def startsWithStr : List Char → List Char → Bool
| [], _ => true
| _ :: _, [] => false
| p :: ps, c :: cs => p = c && startsWithStr ps cs

/-- Does the first list occur as a contiguous sublist of the second?
Models `String.prototype.includes` / an unanchored regex test. -/
def containsSub (pat : List Char) : List Char → Bool
| [] => startsWithStr pat []
| l@(_ :: rest) => startsWithStr pat l || containsSub pat rest

/-- ASCII letter test (regex `[a-z]` under the case-insensitive flag). -/
def isAsciiLetter (c : Char) : Bool :=
  ('a' ≤ c && c ≤ 'z') || ('A' ≤ c && c ≤ 'Z')

/-- ASCII alphanumeric test (regex `[a-z0-9]` under the case-insensitive flag). -/
def isAsciiAlnum (c : Char) : Bool := isAsciiLetter c || c.isDigit

/-- Model of `String.prototype.split` on a newline: JavaScript
`"a\nb".split('\n')` keeps empty segments. -/
def splitOnNl : List Char → List (List Char)
| [] => [[]]
| '\n' :: rest => [] :: splitOnNl rest
| c :: rest =>
  match splitOnNl rest with
  | [] => [[c]]
  | l :: ls => (c :: l) :: ls

/-- Input formats of `src/types`: the five values of `VALID_INPUT_FORMATS`
in `src/core/engine.ts`. -/
inductive InputFormat
| text | md | docx | pdf | html
deriving DecidableEq

/-- Output formats of `src/types`: the four values of `VALID_FORMATS`
in `src/core/engine.ts`. -/
inductive OutputFormat
| md | pdf | docx | html
deriving DecidableEq

/-- Convert input: a JavaScript string or a Node `Buffer` of bytes. -/
inductive JsInput
| str (s : List Char)
| bytes (b : List Nat)

/-- Void elements recognised by `detectStringFormat`
(`src/core/engine.ts` line 159). -/
def voidElements : List (List Char) :=
  ["br".toList, "hr".toList, "img".toList, "input".toList, "meta".toList, "link".toList]

/-- Model of the tag test in `detectStringFormat` (`src/core/engine.ts`
lines 150-165): the regex `^<([a-z][a-z0-9]*)\b[^>]*>` (case-insensitive)
must match the trimmed text, and then the tag must have a matching closing
tag, end in `/>`, or be a void element.  The regex match requires: a `<`,
then a maximal ASCII alphanumeric run starting with a letter (backtracking
cannot shorten the run because a word boundary never falls between two word
characters, so the run is followed by `_` only when there is no match), a
word boundary, then any characters up to a `>`. -/
def htmlTagDetect (t : List Char) : Bool :=
  match t with
  | '<' :: rest =>
    match rest with
    | c :: _ =>
      if isAsciiLetter c then
        let run := rest.takeWhile isAsciiAlnum
        let after := rest.dropWhile isAsciiAlnum
        let boundary :=
          match after with
          | [] => true
          | a :: _ => !(isAsciiAlnum a || a = '_')
        if boundary && after.elem '>' then
          let inner := after.takeWhile (fun x => x ≠ '>')
          let tagName := jsToLower run
          let hasClosingTag := containsSub ('<' :: '/' :: tagName ++ ['>']) (jsToLower t)
          let isSelfClosing := inner.getLast? == some '/'
          let isVoidElement := voidElements.contains tagName
          hasClosingTag || isSelfClosing || isVoidElement
        else false
      else false
    | [] => false
  | _ => false

/-- Model of `detectStringFormat` (`src/core/engine.ts` lines 135-169):
trim, test the exact-casing doctype prefixes, the exact-casing `<html`
prefixes, then the generic tag heuristic, defaulting to markdown. -/
def detectStringFormat (s : List Char) : InputFormat :=
  if startsWithStr ("<!DOCTYPE".toList) (jsTrim s) ||
     startsWithStr ("<!doctype".toList) (jsTrim s) then .html
  else if startsWithStr ("<html".toList) (jsTrim s) ||
          startsWithStr ("<HTML".toList) (jsTrim s) then .html
  else if startsWithStr ("<".toList) (jsTrim s) &&
          !(startsWithStr ("<![".toList) (jsTrim s)) then
    if htmlTagDetect (jsTrim s) then .html else .md
  else .md

/-- Continuation byte test for UTF-8 decoding. -/
def isContinuationByte (b : Nat) : Bool := 0x80 ≤ b && b ≤ 0xBF

/-- Model of Node `buffer.toString('utf8')`: WHATWG UTF-8 decoding with
U+FFFD replacement for invalid sequences.  (In Node this decoding never
throws, so the `catch` fallback in `detectInputFormat` is unreachable.) -/
def decodeUtf8 : List Nat → List Char
| [] => []
| b :: rest =>
  if b ≤ 0x7F then Char.ofNat b :: decodeUtf8 rest
  else if 0xC2 ≤ b ∧ b ≤ 0xDF then
    match rest with
    | [] => [Char.ofNat 0xFFFD]
    | b2 :: r2 =>
      if isContinuationByte b2 then
        Char.ofNat ((b - 0xC0) * 0x40 + (b2 - 0x80)) :: decodeUtf8 r2
      else Char.ofNat 0xFFFD :: decodeUtf8 (b2 :: r2)
  else if 0xE0 ≤ b ∧ b ≤ 0xEF then
    match rest with
    | [] => [Char.ofNat 0xFFFD]
    | b2 :: r2 =>
      if (if b = 0xE0 then 0xA0 else 0x80) ≤ b2 ∧ b2 ≤ (if b = 0xED then 0x9F else 0xBF) then
        match r2 with
        | [] => [Char.ofNat 0xFFFD]
        | b3 :: r3 =>
          if isContinuationByte b3 then
            Char.ofNat ((b - 0xE0) * 0x1000 + (b2 - 0x80) * 0x40 + (b3 - 0x80)) :: decodeUtf8 r3
          else Char.ofNat 0xFFFD :: decodeUtf8 (b3 :: r3)
      else Char.ofNat 0xFFFD :: decodeUtf8 (b2 :: r2)
  else if 0xF0 ≤ b ∧ b ≤ 0xF4 then
    match rest with
    | [] => [Char.ofNat 0xFFFD]
    | b2 :: r2 =>
      if (if b = 0xF0 then 0x90 else 0x80) ≤ b2 ∧ b2 ≤ (if b = 0xF4 then 0x8F else 0xBF) then
        match r2 with
        | [] => [Char.ofNat 0xFFFD]
        | b3 :: r3 =>
          if isContinuationByte b3 then
            match r3 with
            | [] => [Char.ofNat 0xFFFD]
            | b4 :: r4 =>
              if isContinuationByte b4 then
                Char.ofNat ((b - 0xF0) * 0x40000 + (b2 - 0x80) * 0x1000 +
                  (b3 - 0x80) * 0x40 + (b4 - 0x80)) :: decodeUtf8 r4
              else Char.ofNat 0xFFFD :: decodeUtf8 (b4 :: r4)
          else Char.ofNat 0xFFFD :: decodeUtf8 (b3 :: r3)
      else Char.ofNat 0xFFFD :: decodeUtf8 (b2 :: r2)
  else Char.ofNat 0xFFFD :: decodeUtf8 rest

/-- DOCX/ZIP magic-byte check of `detectInputFormat` (`src/core/engine.ts`
lines 99-109): at least 4 bytes and header `PK\x03\x04`. -/
def docxSignature : List Nat → Bool
| b0 :: b1 :: b2 :: b3 :: _ => b0 == 0x50 && b1 == 0x4B && b2 == 0x03 && b3 == 0x04
| _ => false

/-- PDF magic-byte check of `detectInputFormat` (`src/core/engine.ts`
lines 112-117): at least 5 bytes whose `ascii` decoding (low 7 bits) is
`%PDF-`. -/
def pdfSignature (b : List Nat) : Bool :=
  b.length ≥ 5 && ((b.take 5).map (fun x => x % 128)) == [0x25, 0x50, 0x44, 0x46, 0x2D]

/-- Model of `detectInputFormat` (`src/core/engine.ts` lines 94-130). -/
def detectInputFormat (input : JsInput) : InputFormat :=
  match input with
  | .str s => detectStringFormat s
  | .bytes b =>
    if docxSignature b then .docx
    else if pdfSignature b then .pdf
    else detectStringFormat (decodeUtf8 b)

/-- Helper: `detectStringFormat` only ever returns html or markdown. -/
theorem detectStringFormat_cases (s : List Char) :
    detectStringFormat s = .html ∨ detectStringFormat s = .md := by
  unfold detectStringFormat
  split
  · exact Or.inl rfl
  · split
    · exact Or.inl rfl
    · split
      · split
        · exact Or.inl rfl
        · exact Or.inr rfl
      · exact Or.inr rfl

/-- C1: `detectInputFormat` is total (it is a Lean function, so it never
raises) and returns one of the four classifications docx, pdf, html,
markdown for every string or byte-sequence input — in particular never the
fifth declared input format `text` — and both the empty string and the
empty byte sequence classify as markdown. -/
theorem detect_total_and_empty_md :
    (∀ i, detectInputFormat i = .docx ∨ detectInputFormat i = .pdf ∨
      detectInputFormat i = .html ∨ detectInputFormat i = .md) ∧
    detectInputFormat (.str []) = .md ∧ detectInputFormat (.bytes []) = .md := by
  refine ⟨fun i => ?_, by decide, by decide⟩
  cases i with
  | str s =>
    rcases detectStringFormat_cases s with h | h
    · exact Or.inr (Or.inr (Or.inl h))
    · exact Or.inr (Or.inr (Or.inr h))
  | bytes b =>
    have hb : detectInputFormat (.bytes b) =
        (if docxSignature b then InputFormat.docx
         else if pdfSignature b then InputFormat.pdf
         else detectStringFormat (decodeUtf8 b)) := rfl
    rw [hb]
    split
    · exact Or.inl rfl
    · split
      · exact Or.inr (Or.inl rfl)
      · rcases detectStringFormat_cases (decodeUtf8 b) with h | h
        · exact Or.inr (Or.inr (Or.inl h))
        · exact Or.inr (Or.inr (Or.inr h))

/-- C6 counterexample: the trimmed input `<!DocType html>` does start with a
doctype declaration up to letter casing, yet `detectInputFormat` classifies
it as markdown, not html: the source tests only the two exact casings
`<!DOCTYPE` and `<!doctype`, and the generic tag regex requires a letter
after `<`. -/
theorem detect_mixed_case_doctype_md :
    jsToLower (List.take 9 (jsTrim ("<!DocType html>".toList))) = "<!doctype".toList ∧
    detectInputFormat (.str ("<!DocType html>".toList)) = .md ∧
    InputFormat.md ≠ InputFormat.html := by decide

/-- Helper: two candidate prefixes that disagree in their second character
cannot both match; used to order the prefix tests of `detectStringFormat`. -/
theorem startsWith_second_char {t : List Char} {a b c : Char} {p q : List Char}
    (h : startsWithStr (a :: b :: p) t = true) (hbc : b ≠ c) :
    startsWithStr (a :: c :: q) t = false := by
  match t with
  | [] => simp [startsWithStr] at h
  | [x] => simp [startsWithStr] at h
  | x :: y :: rest =>
    simp only [startsWithStr, Bool.and_eq_true, decide_eq_true_eq] at h
    obtain ⟨hax, hby, -⟩ := h
    have hcy : (decide (c = y)) = false := by
      simp only [decide_eq_false_iff_not]
      intro hcy
      exact hbc (hcy.trans hby.symm).symm
    simp [startsWithStr, hcy]

/-- C6 amended: the doctype and `<html` prefix classifications hold for the
exact casings the source tests: a trimmed input starting with `<!DOCTYPE`,
`<!doctype`, `<html` or `<HTML` classifies as html (mixed casings such as
`<!DocType` are not covered by these prefix tests, per the counterexample). -/
theorem detect_exact_doctype_html_prefixes :
    ∀ s : List Char,
      (startsWithStr ("<!DOCTYPE".toList) (jsTrim s) = true ∨
       startsWithStr ("<!doctype".toList) (jsTrim s) = true ∨
       startsWithStr ("<html".toList) (jsTrim s) = true ∨
       startsWithStr ("<HTML".toList) (jsTrim s) = true) →
      detectInputFormat (.str s) = .html := by
  intro s h
  show detectStringFormat s = .html
  unfold detectStringFormat
  rcases h with h | h | h | h
  · rw [if_pos]
    rw [h]
    rfl
  · rw [if_pos]
    rw [h]
    simp
  · have h' : startsWithStr ('<' :: 'h' :: ("tml".toList)) (jsTrim s) = true := h
    have hd1 : startsWithStr ("<!DOCTYPE".toList) (jsTrim s) = false :=
      startsWith_second_char h' (by decide)
    have hd2 : startsWithStr ("<!doctype".toList) (jsTrim s) = false :=
      startsWith_second_char h' (by decide)
    rw [if_neg, if_pos]
    · rw [h]
      rfl
    · rw [hd1, hd2]
      simp
  · have h' : startsWithStr ('<' :: 'H' :: ("TML".toList)) (jsTrim s) = true := h
    have hd1 : startsWithStr ("<!DOCTYPE".toList) (jsTrim s) = false :=
      startsWith_second_char h' (by decide)
    have hd2 : startsWithStr ("<!doctype".toList) (jsTrim s) = false :=
      startsWith_second_char h' (by decide)
    rw [if_neg, if_pos]
    · rw [h]
      simp
    · rw [hd1, hd2]
      simp

/-- C6 amended, witness: a lowercase doctype input classifies as html. -/
theorem detect_exact_doctype_html_prefixes_witness :
    detectInputFormat (.str ("<!doctype html><p>x</p>".toList)) = .html :=
  detect_exact_doctype_html_prefixes _ (Or.inr (Or.inl (by decide)))

/-- Document tree nodes (the mdast shapes produced and consumed by this
codebase: `src/core/ast.ts`, the parsers and the renderers).  Values are
JavaScript strings modelled as `List Char`; `code.lang` is nullable. -/
inductive MdNode
| root (children : List MdNode)
| heading (depth : Nat) (children : List MdNode)
| paragraph (children : List MdNode)
| text (value : List Char)
| list (ordered : Bool) (spread : Bool) (children : List MdNode)
| listItem (spread : Bool) (children : List MdNode)
| code (lang : Option (List Char)) (value : List Char)
| blockquote (children : List MdNode)
| thematicBreak
| strong (children : List MdNode)
| emphasis (children : List MdNode)
| inlineCode (value : List Char)
| link (url : List Char) (children : List MdNode)
| image (url : List Char) (alt : List Char)
| hardBreak

/-- Cause of a delegated failure: a JavaScript `Error` reduced to its
message (the only field the engine's wrappers consult). -/
structure Cause where
  message : List Char
deriving DecidableEq

/-- Renderer output: a string (md, html) or a byte buffer (pdf, docx). -/
inductive Output
| strOut (s : List Char)
| bufOut (b : List Nat)
deriving DecidableEq

/-- Errors of `src/utils/errors.ts` as far as the conversion pipeline
raises them: `ValidationError` (message, field) and `ConversionError`
(message, target format, cause — the renderer wrappers always attach the
caught error as the cause), plus parse failures. -/
inductive ConvErr
| validation (message : List Char) (field : List Char)
| conversion (message : List Char) (format : OutputFormat) (cause : Cause)
| parseFailure (message : List Char) (cause : Option Cause)
deriving DecidableEq

/-- Which delegated parser `parseInput` dispatches to, with its argument. -/
inductive ParseCall
| markdown (text : List Char)
| htmlCall (text : List Char)
| docxCall (bytes : List Nat)
| pdfCall (bytes : List Nat)
deriving DecidableEq

/-- Model of `parseInput` (`src/core/engine.ts` lines 174-202): binary-only
formats raise a `ValidationError` on string input before any parser runs;
otherwise the matching parser is invoked (buffers are UTF-8 decoded for the
text formats). -/
def parseInput (input : JsInput) (format : InputFormat) : Except ConvErr ParseCall :=
  match format with
  | .docx =>
    match input with
    | .str _ => .error (.validation ("DOCX input must be a Buffer".toList) ("input".toList))
    | .bytes b => .ok (.docxCall b)
  | .pdf =>
    match input with
    | .str _ => .error (.validation ("PDF input must be a Buffer".toList) ("input".toList))
    | .bytes b => .ok (.pdfCall b)
  | .html =>
    match input with
    | .bytes b => .ok (.htmlCall (decodeUtf8 b))
    | .str s => .ok (.htmlCall s)
  | .text | .md =>
    match input with
    | .bytes b => .ok (.markdown (decodeUtf8 b))
    | .str s => .ok (.markdown s)

/-- Conversion options (`ConvertOptions` in `src/types`), restricted to the
fields the modelled pipeline reads; metadata and templates are consumed
only inside the delegated renderer bodies. -/
structure ConvertOpts where
  format : List OutputFormat
  inputFormat : Option InputFormat

/-- Result map of `convert`: one optional slot per output format. -/
structure ConvertResult where
  md : Option Output
  html : Option Output
  pdf : Option Output
  docx : Option Output
deriving DecidableEq

/-- Assignment `result.<format> = output` in the fan-out loop
(`src/core/engine.ts` lines 61-74). -/
def setOutput (r : ConvertResult) (f : OutputFormat) (o : Output) : ConvertResult :=
  match f with
  | .md => ⟨some o, r.html, r.pdf, r.docx⟩
  | .html => ⟨r.md, some o, r.pdf, r.docx⟩
  | .pdf => ⟨r.md, r.html, some o, r.docx⟩
  | .docx => ⟨r.md, r.html, r.pdf, some o⟩

/-- Target names appearing in the renderer failure messages. -/
def renderName : OutputFormat → List Char
| .md => "Markdown".toList
| .html => "HTML".toList
| .pdf => "PDF".toList
| .docx => "DOCX".toList

/-- Model of each renderer's try/catch wrapper (`src/renderers/html.ts`
lines 138-144 and its three siblings): an inner failure is rethrown as a
`ConversionError` whose message names the target format, whose `format`
field is the target, and which carries the original error as cause. -/
def renderWrapped (f : OutputFormat) (inner : Except Cause Output) : Except ConvErr Output :=
  match inner with
  | .ok o => .ok o
  | .error c =>
    .error (.conversion (("Failed to render ".toList) ++ renderName f ++ (": ".toList) ++ c.message) f c)

/-- Model of the concurrent fan-out of `convert` (`src/core/engine.ts`
lines 54-88): every requested format is rendered and assigned to its key,
and `await Promise.all` rejects with a renderer failure when one exists.
Which of several concurrent failures is surfaced first is timing-dependent
in the source; the model deterministically surfaces the first failure in
request order. -/
def runConversions (render : OutputFormat → Except ConvErr Output) :
    List OutputFormat → ConvertResult → Except ConvErr ConvertResult
| [], acc => .ok acc
| f :: rest, acc =>
  match render f with
  | .error e => .error e
  | .ok o => runConversions render rest (setOutput acc f o)

/-- Composition of parse dispatch and the delegated parser body: the
`await parseInput(input, inputFormat)` step of `convert`. -/
def parseStage (parserRun : ParseCall → Except ConvErr MdNode) (input : JsInput)
    (format : InputFormat) : Except ConvErr MdNode :=
  match parseInput input format with
  | .error e => .error e
  | .ok pc => parserRun pc

/-- Model of `convert` (`src/core/engine.ts` lines 40-89), parameterized by
the delegated parser bodies and renderer bodies.  Of `validateInput`, only
the non-empty-format check is representable in the typed model (null or
mistyped input, a non-array format list, an unknown format member and
non-object metadata are unrepresentable by construction). -/
def convert (parserRun : ParseCall → Except ConvErr MdNode)
    (rendererInner : OutputFormat → MdNode → Except Cause Output)
    (input : JsInput) (opts : ConvertOpts) : Except ConvErr ConvertResult :=
  if opts.format = [] then
    .error (.validation ("At least one output format is required".toList) ("format".toList))
  else
    match parseStage parserRun input (opts.inputFormat.getD (detectInputFormat input)) with
    | .error e => .error e
    | .ok ast =>
      runConversions (fun f => renderWrapped f (rendererInner f ast)) opts.format ⟨none, none, none, none⟩

/-- Unfolding lemma: wrapping a successful render. -/
theorem renderWrapped_ok (f : OutputFormat) (o : Output) :
    renderWrapped f (.ok o) = .ok o := rfl

/-- Unfolding lemma: wrapping a failed render builds the ConversionError. -/
theorem renderWrapped_error (f : OutputFormat) (c : Cause) :
    renderWrapped f (.error c) =
      .error (.conversion (("Failed to render ".toList) ++ renderName f ++
        (": ".toList) ++ c.message) f c) := rfl

/-- Helper: the fan-out rejects whenever some requested format's render
rejects, surfacing one of the failures. -/
theorem runConversions_failure (render : OutputFormat → Except ConvErr Output) :
    ∀ (formats : List OutputFormat) (acc : ConvertResult),
      (∃ f ∈ formats, ∃ e, render f = .error e) →
      ∃ f e, runConversions render formats acc = .error e ∧ f ∈ formats ∧ render f = .error e := by
  intro formats
  induction formats with
  | nil =>
    intro acc h
    obtain ⟨f, hf, -⟩ := h
    exact absurd hf (List.not_mem_nil f)
  | cons f0 rest ih =>
    intro acc h
    cases hr : render f0 with
    | error e =>
      refine ⟨f0, e, ?_, List.mem_cons_self f0 rest, hr⟩
      unfold runConversions
      rw [hr]
    | ok o =>
      obtain ⟨f, hf, e, he⟩ := h
      rcases List.mem_cons.mp hf with rfl | hf'
      · rw [hr] at he
        exact absurd he (by simp)
      · obtain ⟨f', e', hrun, hmem, herr⟩ := ih (setOutput acc f0 o) ⟨f, hf', e, he⟩
        refine ⟨f', e', ?_, List.mem_cons_of_mem f0 hmem, herr⟩
        unfold runConversions
        rw [hr]
        exact hrun

/-- C2: whenever the parse stage succeeds and at least one requested
renderer fails, the whole `convert` call rejects with a renderer failure —
no result map is returned with the failed key omitted — and the surfaced
error is a `ConversionError` whose message and `format` field name the
failing target format and which carries the original cause. -/
theorem convert_render_failure_aborts :
    ∀ (parserRun : ParseCall → Except ConvErr MdNode)
      (rendererInner : OutputFormat → MdNode → Except Cause Output)
      (input : JsInput) (opts : ConvertOpts) (ast : MdNode),
      opts.format ≠ [] →
      parseStage parserRun input (opts.inputFormat.getD (detectInputFormat input)) = .ok ast →
      (∃ f ∈ opts.format, ∃ c, rendererInner f ast = .error c) →
      ∃ f c, convert parserRun rendererInner input opts =
          .error (.conversion (("Failed to render ".toList) ++ renderName f ++
            (": ".toList) ++ c.message) f c) ∧
        f ∈ opts.format ∧ rendererInner f ast = .error c := by
  intro parserRun rendererInner input opts ast hne hparse hfail
  have hfail' : ∃ f ∈ opts.format, ∃ e,
      (fun f => renderWrapped f (rendererInner f ast)) f = .error e := by
    obtain ⟨f, hf, c, hc⟩ := hfail
    refine ⟨f, hf, .conversion (("Failed to render ".toList) ++ renderName f ++
      (": ".toList) ++ c.message) f c, ?_⟩
    show renderWrapped f (rendererInner f ast) = _
    rw [hc, renderWrapped_error]
  obtain ⟨f, e, hrun, hmem, herr⟩ :=
    runConversions_failure _ opts.format ⟨none, none, none, none⟩ hfail'
  have herr2 : renderWrapped f (rendererInner f ast) = .error e := herr
  cases hc : rendererInner f ast with
  | ok o =>
    rw [hc, renderWrapped_ok] at herr2
    exact absurd herr2 (by simp)
  | error c =>
    rw [hc, renderWrapped_error] at herr2
    injection herr2 with he
    refine ⟨f, c, ?_, hmem, hc⟩
    unfold convert
    rw [if_neg hne, hparse, he]
    exact hrun

/-- Sample delegated parser used in the C2/C3 witness instantiations. -/
def demoParser : ParseCall → Except ConvErr MdNode := fun _ => .ok (.root [])

/-- Sample renderer set that fails on pdf, used in the C2/C3 witnesses. -/
def demoRenderer : OutputFormat → MdNode → Except Cause Output :=
  fun f _ => if f = .pdf then .error ⟨("boom".toList)⟩ else .ok (.strOut [])

/-- C2 witness: with the sample parser and a renderer set failing on the
requested pdf target, `convert` rejects with the pdf ConversionError. -/
theorem convert_render_failure_aborts_witness :
    ∃ f c,
      convert demoParser demoRenderer (.str ("hi".toList)) ⟨[.md, .pdf], some .md⟩ =
        .error (.conversion (("Failed to render ".toList) ++ renderName f ++
          (": ".toList) ++ c.message) f c) ∧
      f ∈ (⟨[.md, .pdf], some .md⟩ : ConvertOpts).format ∧
      demoRenderer f (.root []) = .error c :=
  convert_render_failure_aborts demoParser demoRenderer (.str ("hi".toList))
    ⟨[.md, .pdf], some .md⟩ (.root []) (by decide) rfl
    ⟨.pdf, by decide, ⟨("boom".toList)⟩, rfl⟩

/-- C3: a call whose resolved input format is pdf or docx but whose input
is a string raises a `ValidationError` at parse dispatch whose message
names the binary requirement ("must be a Buffer"); the whole `convert`
rejects with that very error, so no parser and no renderer ever runs. -/
theorem parseInput_binary_requires_buffer :
    ∀ (s : List Char) (fmt : InputFormat)
      (parserRun : ParseCall → Except ConvErr MdNode)
      (rendererInner : OutputFormat → MdNode → Except Cause Output)
      (opts : ConvertOpts),
      (fmt = .pdf ∨ fmt = .docx) → opts.inputFormat = some fmt → opts.format ≠ [] →
      ∃ msg, parseInput (.str s) fmt = .error (.validation msg ("input".toList)) ∧
        containsSub ("must be a Buffer".toList) msg = true ∧
        convert parserRun rendererInner (.str s) opts = .error (.validation msg ("input".toList)) := by
  intro s fmt parserRun rendererInner opts hfmt hin hne
  have hconv : ∀ msg, parseInput (.str s) fmt = .error (.validation msg ("input".toList)) →
      convert parserRun rendererInner (.str s) opts = .error (.validation msg ("input".toList)) := by
    intro msg hp
    unfold convert
    rw [if_neg hne, hin]
    simp only [Option.getD_some]
    unfold parseStage
    rw [hp]
  rcases hfmt with rfl | rfl
  · exact ⟨("PDF input must be a Buffer".toList), rfl, by decide, hconv _ rfl⟩
  · exact ⟨("DOCX input must be a Buffer".toList), rfl, by decide, hconv _ rfl⟩

/-- C3 witness: a string input declared as pdf is rejected with the
buffer-requirement ValidationError. -/
theorem parseInput_binary_requires_buffer_witness :
    ∃ msg, parseInput (.str ("hello".toList)) .pdf = .error (.validation msg ("input".toList)) ∧
      containsSub ("must be a Buffer".toList) msg = true ∧
      convert demoParser demoRenderer (.str ("hello".toList)) ⟨[.md], some .pdf⟩ =
        .error (.validation msg ("input".toList)) :=
  parseInput_binary_requires_buffer ("hello".toList) .pdf demoParser demoRenderer
    ⟨[.md], some .pdf⟩ (Or.inl rfl) rfl (by decide)

/-- Terminal punctuation test, regex `[.!?,;:]$` (shared by both lossy-text
reconstructors' heading heuristics). -/
def endsWithPunct (l : List Char) : Bool :=
  match l.getLast? with
  | some c => c = '.' || c = '!' || c = '?' || c = ',' || c = ';' || c = ':'
  | none => false

/-- Character class `[.)]` followed by at least one whitespace, then
arbitrary text: the `[.)]\s+` tail of the numbered-marker regexes. -/
def punctThenWs : List Char → Bool
| p :: c :: _ => (p = '.' || p = ')') && jsWhitespaceChar c
| _ => false

/-- Roman-numeral marker characters `[ivx]` under the case-insensitive
flag. -/
def romanChar (c : Char) : Bool :=
  lowerChar c = 'i' || lowerChar c = 'v' || lowerChar c = 'x'

/-- Paragraph node constructor `createParagraph` (identical in
`src/parsers/pdf.ts` lines 226-231 and the docx parser). -/
def createParagraph (text : List Char) : MdNode := .paragraph [.text text]

/-- Heading node constructor `createHeading` (identical in
`src/parsers/pdf.ts` lines 215-221 and the docx parser). -/
def createHeading (text : List Char) (depth : Nat) : MdNode := .heading depth [.text text]

/-- Paragraph flush of the reconstruction loops: buffered lines joined with
a single space become one paragraph; an empty buffer emits nothing. -/
def flushPara (pb : List (List Char)) : List MdNode :=
  if pb.isEmpty then [] else [createParagraph (List.intercalate [' '] pb)]

/-- Model of `String.prototype.split(/\s+/)` as used by `isTitleCase`:
split on maximal whitespace runs, producing empty leading/trailing
segments exactly as JavaScript does. -/
def splitWsRuns (l : List Char) : List (List Char) :=
  match h : l.dropWhile (fun c => !jsWhitespaceChar c) with
  | [] => [l.takeWhile (fun c => !jsWhitespaceChar c)]
  | _ :: xs =>
    l.takeWhile (fun c => !jsWhitespaceChar c) :: splitWsRuns (xs.dropWhile jsWhitespaceChar)
termination_by l.length
decreasing_by
  have h1 : (l.dropWhile (fun c => !jsWhitespaceChar c)).length ≤ l.length :=
    (List.dropWhile_suffix _).sublist.length_le
  have h2 : (xs.dropWhile jsWhitespaceChar).length ≤ xs.length :=
    (List.dropWhile_suffix _).sublist.length_le
  rw [h] at h1
  simp only [List.length_cons] at h1
  omega

namespace Pdf

/-- Bullet glyph class `[-*•·‣▪]` of `src/parsers/pdf.ts` line 202. -/
def bulletChar (c : Char) : Bool :=
  c = '-' || c = '*' || c = '•' || c = '·' || c = '‣' || c = '▪'

/-- Model of `isListItem` (`src/parsers/pdf.ts` lines 200-210): a bullet
glyph followed by whitespace, or the case-insensitive
`(\d+|[a-z]|[ivx]+)[.)]\s+` pattern, each after optional leading
whitespace.  For every alternative only the maximal marker run can be
followed by `[.)]`, so backtracking never helps. -/
def isListItem (line : List Char) : Bool :=
  (match line.dropWhile jsWhitespaceChar with
   | m :: c :: _ => bulletChar m && jsWhitespaceChar c
   | _ => false) ||
  (let r := line.dropWhile jsWhitespaceChar
   (!(r.takeWhile Char.isDigit).isEmpty && punctThenWs (r.dropWhile Char.isDigit)) ||
   (match r with
    | c :: rest => isAsciiLetter c && punctThenWs rest
    | [] => false) ||
   (!(r.takeWhile romanChar).isEmpty && punctThenWs (r.dropWhile romanChar)))

/-- Stop words of `isTitleCase` (`src/parsers/pdf.ts` line 168). -/
def titleStopWords : List (List Char) :=
  ["a".toList, "an".toList, "the".toList, "and".toList, "or".toList, "but".toList,
   "in".toList, "on".toList, "at".toList, "to".toList, "for".toList, "of".toList]

/-- Model of `isTitleCase` (`src/parsers/pdf.ts` lines 163-172): at least
two whitespace-separated words, and every word outside the stop list starts
with an ASCII capital. -/
def isTitleCase (text : List Char) : Bool :=
  let words := splitWsRuns text
  if words.length < 2 then false
  else
    (words.filter (fun w => !(titleStopWords.contains (jsToLower w)))).all
      (fun w => match w with
        | c :: _ => 'A' ≤ c && c ≤ 'Z'
        | [] => false)

/-- Matched prefix of the regex `^(\d+)(\.\d+)*`: the leading digit run
followed by the maximal sequence of `.digits` groups (empty when the line
does not start with a digit).  The fuel argument bounds the group loop;
`l.length` always suffices because every group consumes at least two
characters. -/
def dotGroupsFuel : Nat → List Char → List Char
| 0, _ => []
| n + 1, l =>
  match l with
  | '.' :: rest =>
    if (rest.takeWhile Char.isDigit).isEmpty then []
    else '.' :: rest.takeWhile Char.isDigit ++ dotGroupsFuel n (rest.dropWhile Char.isDigit)
  | _ => []

/-- Matched prefix of `line.match(/^(\d+)(\.\d+)*/)` in
`detectHeadingLevel` (`src/parsers/pdf.ts` line 184); empty when there is
no match. -/
def sectionMatch (l : List Char) : List Char :=
  let ds := l.takeWhile Char.isDigit
  if ds.isEmpty then [] else ds ++ dotGroupsFuel l.length (l.dropWhile Char.isDigit)

/-- Model of the numbered-section test `/^\d+(\.\d+)*\s+[A-Z]/` of
`isLikelyHeading` (`src/parsers/pdf.ts` line 153): the section prefix, at
least one whitespace, then an ASCII capital. -/
def isNumberedSection (l : List Char) : Bool :=
  !(l.takeWhile Char.isDigit).isEmpty &&
  (let r := l.drop (sectionMatch l).length
   (match r with
    | c :: _ => jsWhitespaceChar c
    | [] => false) &&
   (match r.dropWhile jsWhitespaceChar with
    | c :: _ => 'A' ≤ c && c ≤ 'Z'
    | [] => false))

/-- Model of `isLikelyHeading` (`src/parsers/pdf.ts` lines 125-158). -/
def isLikelyHeading (line nextLine : List Char) (isFirstContent : Bool) : Bool :=
  if isListItem line then false
  else if line == jsToUpper line && line.length < 60 && line.length > 2 then true
  else if line.length < 60 && nextLine.isEmpty && !endsWithPunct line &&
          (isFirstContent || (isTitleCase line && line.length < 50)) then true
  else if isNumberedSection line && line.length < 80 then true
  else false

/-- Model of `detectHeadingLevel` (`src/parsers/pdf.ts` lines 177-195):
all-caps gives depth 1; a line starting with a digit gives the section
prefix's dot count plus one, capped with `Math.min(…, 6)`; otherwise the
raw length buckets. -/
def detectHeadingLevel (line : List Char) : Nat :=
  if line == jsToUpper line then 1
  else if !(line.takeWhile Char.isDigit).isEmpty then
    min ((sectionMatch line).count '.' + 1) 6
  else if line.length < 25 then 1
  else if line.length < 40 then 2
  else if line.length < 60 then 3
  else 4

/-- First `replace` of `createList`'s marker stripping
(`src/parsers/pdf.ts` line 242): remove a leading-whitespace bullet marker
and all whitespace after it, when the bullet pattern matches. -/
def stripBullet (l : List Char) : List Char :=
  match l.dropWhile jsWhitespaceChar with
  | m :: rest =>
    if bulletChar m && (match rest with
      | c :: _ => jsWhitespaceChar c
      | [] => false) then rest.dropWhile jsWhitespaceChar
    else l
  | [] => l

/-- Second `replace` of `createList`'s marker stripping
(`src/parsers/pdf.ts` line 243): remove a numbered, lettered or roman
marker with its punctuation and trailing whitespace, trying the regex
alternatives in order. -/
def stripNumbered (l : List Char) : List Char :=
  let r := l.dropWhile jsWhitespaceChar
  if !(r.takeWhile Char.isDigit).isEmpty && punctThenWs (r.dropWhile Char.isDigit) then
    ((r.dropWhile Char.isDigit).drop 1).dropWhile jsWhitespaceChar
  else
    match r with
    | c :: rest =>
      if isAsciiLetter c && punctThenWs rest then (rest.drop 1).dropWhile jsWhitespaceChar
      else if !(r.takeWhile romanChar).isEmpty && punctThenWs (r.dropWhile romanChar) then
        ((r.dropWhile romanChar).drop 1).dropWhile jsWhitespaceChar
      else l
    | [] => l

/-- Ordered-marker test of `createList` (`src/parsers/pdf.ts` line 237):
`/^[\s]*(\d+|[a-z])[.)]/` — note: single lowercase letter only, and no
whitespace required after the punctuation. -/
def orderedMarker (l : List Char) : Bool :=
  (let r := l.dropWhile jsWhitespaceChar
   (!(r.takeWhile Char.isDigit).isEmpty &&
    (match r.dropWhile Char.isDigit with
     | p :: _ => p = '.' || p = ')'
     | [] => false)) ||
   (match r with
    | c :: p :: _ => ('a' ≤ c && c ≤ 'z') && (p = '.' || p = ')')
    | _ => false))

/-- Model of `createList` (`src/parsers/pdf.ts` lines 236-258): the ordered
flag comes from the first collected item, every item is stripped of its
marker and wrapped in a list-item holding one paragraph. -/
def createList (items : List (List Char)) : MdNode :=
  .list (orderedMarker (items.headD [])) false
    (items.map (fun item => .listItem false [createParagraph (stripNumbered (stripBullet item))]))

/-- List flush of the reconstruction loop. -/
def flushList (items : List (List Char)) : List MdNode :=
  if items.isEmpty then [] else [createList items]

/-- Model of the scan loop of `parseExtractedText` (`src/parsers/pdf.ts`
lines 55-117) as a recursion over the remaining lines with the paragraph
buffer and the list buffer as state (the source's `inList` flag is true
exactly when the list buffer is non-empty).  A blank line flushes the
paragraph and then the list; a list-item line flushes the paragraph and
extends the list buffer; any other line first flushes the list, then either
emits a heading (flushing the paragraph) or extends the paragraph buffer;
at the end the paragraph is flushed before the list. -/
def processLines : List (List Char) → List (List Char) → List (List Char) → List MdNode
| [], pb, items => flushPara pb ++ flushList items
| line :: rest, pb, items =>
  let t := jsTrim line
  let next := jsTrim (rest.headD [])
  if t.isEmpty then flushPara pb ++ flushList items ++ processLines rest [] []
  else if isListItem t then flushPara pb ++ processLines rest [] (items ++ [t])
  else
    flushList items ++
      (if isLikelyHeading t next pb.isEmpty then
        flushPara pb ++ createHeading t (detectHeadingLevel t) :: processLines rest [] []
      else processLines rest (pb ++ [t]) [])

/-- Model of `parseExtractedText` (`src/parsers/pdf.ts` lines 48-120). -/
def parseExtractedText (text : List Char) : MdNode :=
  .root (processLines (splitOnNl text) [] [])

/-- Reference reconstruction written from the specification's wording: the
same blank-line/heading/paragraph handling, but a maximal run of
consecutive list-item lines is taken in one step (`takeWhile`/`dropWhile`)
and emitted as a single list node whose items are the trimmed lines of the
run. -/
def specLines : List (List Char) → List (List Char) → List MdNode
| [], pb => flushPara pb
| line :: rest, pb =>
  let t := jsTrim line
  let next := jsTrim (rest.headD [])
  if t.isEmpty then flushPara pb ++ specLines rest []
  else if isListItem t then
    flushPara pb ++
      createList (t :: (rest.takeWhile (fun l => isListItem (jsTrim l))).map jsTrim) ::
      specLines (rest.dropWhile (fun l => isListItem (jsTrim l))) []
  else if isLikelyHeading t next pb.isEmpty then
    flushPara pb ++ createHeading t (detectHeadingLevel t) :: specLines rest []
  else specLines rest (pb ++ [t])
termination_by lines _ => lines.length
decreasing_by
  all_goals
    have h2 : (rest.dropWhile (fun l => isListItem (jsTrim l))).length ≤ rest.length :=
      (List.dropWhile_suffix _).sublist.length_le
    simp only [List.length_cons]
    omega

end Pdf

namespace Docx

/-- Model of `isListItem` of the docx parser (`src/parsers/docx.ts`
line 137-139): `/^[\s]*[-•·*]\s+/` or `/^[\s]*\d+[.)]\s+/`. -/
def isListItem (line : List Char) : Bool :=
  (match line.dropWhile jsWhitespaceChar with
   | m :: c :: _ => (m = '-' || m = '•' || m = '·' || m = '*') && jsWhitespaceChar c
   | _ => false) ||
  (let r := line.dropWhile jsWhitespaceChar
   !(r.takeWhile Char.isDigit).isEmpty && punctThenWs (r.dropWhile Char.isDigit))

/-- Model of `isLikelyHeading` of the docx parser (`src/parsers/docx.ts`
lines 103-114): the outer guard admits short unpunctuated non-list lines
that are first content, all-caps, or capitalised, but the returned value is
`isFirstContent && line.length < 60`. -/
def isLikelyHeading (line : List Char) (isFirstContent : Bool) : Bool :=
  if line.length < 80 && !endsWithPunct line && !isListItem line &&
     (isFirstContent || line == jsToUpper line ||
      (match line with
       | c :: _ => 'A' ≤ c && c ≤ 'Z'
       | [] => false)) then
    isFirstContent && line.length < 60
  else false

/-- Model of `detectHeadingLevel` of the docx parser (`src/parsers/docx.ts`
lines 119-132): all-caps under 40 characters gives 1, then the length
buckets under 30 → 1, under 50 → 2, otherwise 3. -/
def detectHeadingLevel (line : List Char) : Nat :=
  if line == jsToUpper line && line.length < 40 then 1
  else if line.length < 30 then 1
  else if line.length < 50 then 2
  else 3

/-- First marker-stripping `replace` of the docx `createList`
(`src/parsers/docx.ts` line 168): `/^[\s]*[-•·*]\s+/`. -/
def stripBullet (l : List Char) : List Char :=
  match l.dropWhile jsWhitespaceChar with
  | m :: rest =>
    if (m = '-' || m = '•' || m = '·' || m = '*') && (match rest with
      | c :: _ => jsWhitespaceChar c
      | [] => false) then rest.dropWhile jsWhitespaceChar
    else l
  | [] => l

/-- Second marker-stripping `replace` of the docx `createList`
(`src/parsers/docx.ts` line 168): `/^[\s]*\d+[.)]\s+/`. -/
def stripNumbered (l : List Char) : List Char :=
  let r := l.dropWhile jsWhitespaceChar
  if !(r.takeWhile Char.isDigit).isEmpty && punctThenWs (r.dropWhile Char.isDigit) then
    ((r.dropWhile Char.isDigit).drop 1).dropWhile jsWhitespaceChar
  else l

/-- Ordered-marker test of the docx `createList` (`src/parsers/docx.ts`
line 178): `/^[\s]*\d+[.)]/` on the first item. -/
def orderedMarker (l : List Char) : Bool :=
  let r := l.dropWhile jsWhitespaceChar
  !(r.takeWhile Char.isDigit).isEmpty &&
  (match r.dropWhile Char.isDigit with
   | p :: _ => p = '.' || p = ')'
   | [] => false)

/-- Model of the docx `createList` (`src/parsers/docx.ts` lines 165-182). -/
def createList (items : List (List Char)) : MdNode :=
  .list (orderedMarker (items.headD [])) false
    (items.map (fun item => .listItem false [createParagraph (stripNumbered (stripBullet item))]))

/-- Model of the scan loop of `parseRawText` (`src/parsers/docx.ts`
lines 59-90): blank lines flush the paragraph; heading lines are tested
before list lines; a list-item line is emitted immediately as a
single-item list (the source comments that it deliberately does not
collect consecutive list items); other lines extend the paragraph
buffer. -/
def rawLoop : List (List Char) → List (List Char) → List MdNode
| [], pb => flushPara pb
| line :: rest, pb =>
  let t := jsTrim line
  if t.isEmpty then flushPara pb ++ rawLoop rest []
  else if isLikelyHeading t pb.isEmpty then
    flushPara pb ++ createHeading t (detectHeadingLevel t) :: rawLoop rest []
  else if isListItem t then flushPara pb ++ createList [t] :: rawLoop rest []
  else rawLoop rest (pb ++ [t])

/-- Model of `parseRawText` (`src/parsers/docx.ts` lines 50-98): an empty
string yields an empty root. -/
def parseRawText (text : List Char) : MdNode :=
  if text.isEmpty then .root [] else .root (rawLoop (splitOnNl text) [])

end Docx

/-- Unfolding lemma: flushing an empty paragraph buffer emits nothing. -/
theorem flushPara_nil : flushPara [] = [] := rfl

/-- Unfolding lemma: flushing an empty list buffer emits nothing. -/
theorem flushList_nil : Pdf.flushList [] = [] := rfl

/-- Unfolding lemma: flushing a non-empty list buffer emits one list node. -/
theorem flushList_ne (items : List (List Char)) (h : items ≠ []) :
    Pdf.flushList items = [Pdf.createList items] := by
  unfold Pdf.flushList
  rw [if_neg]
  simp [h]

/-- Unfolding lemma: the empty line of a list is never a list item. -/
theorem isListItem_nil : Pdf.isListItem [] = false := rfl

/-- Equation lemma for the reference reconstruction, empty case. -/
theorem specLines_nil (pb : List (List Char)) : Pdf.specLines [] pb = flushPara pb := by
  unfold Pdf.specLines
  rfl

/-- Equation lemma for the reference reconstruction, cons case. -/
theorem specLines_cons (line : List Char) (rest : List (List Char)) (pb : List (List Char)) :
    Pdf.specLines (line :: rest) pb =
      (if (jsTrim line).isEmpty then flushPara pb ++ Pdf.specLines rest []
       else if Pdf.isListItem (jsTrim line) then
         flushPara pb ++
           Pdf.createList (jsTrim line ::
             (rest.takeWhile (fun l => Pdf.isListItem (jsTrim l))).map jsTrim) ::
           Pdf.specLines (rest.dropWhile (fun l => Pdf.isListItem (jsTrim l))) []
       else if Pdf.isLikelyHeading (jsTrim line) (jsTrim (rest.headD [])) pb.isEmpty then
         flushPara pb ++ createHeading (jsTrim line) (Pdf.detectHeadingLevel (jsTrim line)) ::
           Pdf.specLines rest []
       else Pdf.specLines rest (pb ++ [jsTrim line])) := by
  rw [Pdf.specLines]

/-- Equation lemma for the source scan loop, empty case. -/
theorem processLines_nil (pb items : List (List Char)) :
    Pdf.processLines [] pb items = flushPara pb ++ Pdf.flushList items := rfl

/-- Equation lemma for the source scan loop, cons case. -/
theorem processLines_cons (line : List Char) (rest pb items : List (List Char)) :
    Pdf.processLines (line :: rest) pb items =
      (if (jsTrim line).isEmpty then
        flushPara pb ++ Pdf.flushList items ++ Pdf.processLines rest [] []
       else if Pdf.isListItem (jsTrim line) then
        flushPara pb ++ Pdf.processLines rest [] (items ++ [jsTrim line])
       else
        Pdf.flushList items ++
          (if Pdf.isLikelyHeading (jsTrim line) (jsTrim (rest.headD [])) pb.isEmpty then
            flushPara pb ++ createHeading (jsTrim line) (Pdf.detectHeadingLevel (jsTrim line)) ::
              Pdf.processLines rest [] []
          else Pdf.processLines rest (pb ++ [jsTrim line]) [])) := rfl

/-- Helper: the source scan loop agrees with the reference reconstruction.
Statement E (empty list buffer) is the equivalence; statement L says that a
non-empty list buffer absorbs the maximal run of following list-item lines
into one list node before the reference reconstruction resumes. -/
theorem plAux : ∀ (n : Nat) (lines : List (List Char)), lines.length ≤ n →
    (∀ pb, Pdf.processLines lines pb [] = Pdf.specLines lines pb) ∧
    (∀ items, items ≠ [] →
      Pdf.processLines lines [] items =
        Pdf.createList (items ++
            (lines.takeWhile (fun l => Pdf.isListItem (jsTrim l))).map jsTrim) ::
          Pdf.specLines (lines.dropWhile (fun l => Pdf.isListItem (jsTrim l))) []) := by
  have base : (∀ pb, Pdf.processLines [] pb [] = Pdf.specLines [] pb) ∧
      (∀ items, items ≠ [] →
        Pdf.processLines [] [] items =
          Pdf.createList (items ++
              (List.takeWhile (fun l => Pdf.isListItem (jsTrim l)) []).map jsTrim) ::
            Pdf.specLines (List.dropWhile (fun l => Pdf.isListItem (jsTrim l)) []) []) := by
    constructor
    · intro pb
      rw [processLines_nil, specLines_nil, flushList_nil, List.append_nil]
    · intro items hitems
      rw [processLines_nil, flushPara_nil, flushList_ne items hitems]
      simp only [List.takeWhile_nil, List.dropWhile_nil, List.map_nil, List.append_nil,
        List.nil_append]
      rw [specLines_nil, flushPara_nil]
  intro n
  induction n with
  | zero =>
    intro lines hlen
    have hnil : lines = [] := by
      cases lines with
      | nil => rfl
      | cons a as => simp at hlen
    subst hnil
    exact base
  | succ n ih =>
    intro lines hlen
    cases lines with
    | nil => exact base
    | cons l rest =>
      have hrest : rest.length ≤ n := by
        simp only [List.length_cons] at hlen
        omega
      obtain ⟨ihE, ihL⟩ := ih rest hrest
      constructor
      · intro pb
        rw [processLines_cons, specLines_cons]
        by_cases h1 : (jsTrim l).isEmpty = true
        · rw [if_pos h1, if_pos h1, flushList_nil, List.append_nil, ihE []]
        · by_cases h2 : Pdf.isListItem (jsTrim l) = true
          · rw [if_neg h1, if_neg h1, if_pos h2, if_pos h2, List.nil_append,
              ihL [jsTrim l] (by simp)]
            simp
          · rw [if_neg h1, if_neg h1, if_neg h2, if_neg h2, flushList_nil, List.nil_append]
            by_cases h3 : Pdf.isLikelyHeading (jsTrim l) (jsTrim (rest.headD [])) pb.isEmpty = true
            · rw [if_pos h3, if_pos h3, ihE []]
            · rw [if_neg h3, if_neg h3, ihE (pb ++ [jsTrim l])]
      · intro items hitems
        rw [processLines_cons]
        simp only [List.isEmpty_nil]
        by_cases h1 : (jsTrim l).isEmpty = true
        · have hp : Pdf.isListItem (jsTrim l) = false := by
            have he : jsTrim l = [] := by simpa using h1
            rw [he, isListItem_nil]
          rw [if_pos h1, flushList_ne items hitems, flushPara_nil, List.nil_append, ihE [],
            List.takeWhile_cons, List.dropWhile_cons, hp]
          simp only [Bool.false_eq_true, if_false, List.map_nil, List.append_nil]
          rw [specLines_cons, if_pos h1, flushPara_nil, List.nil_append]
          simp
        · by_cases h2 : Pdf.isListItem (jsTrim l) = true
          · rw [if_neg h1, if_pos h2, flushPara_nil, List.nil_append,
              ihL (items ++ [jsTrim l]) (by simp), List.takeWhile_cons, List.dropWhile_cons, h2]
            simp
          · have h2' : Pdf.isListItem (jsTrim l) = false := by simpa using h2
            rw [if_neg h1, if_neg h2, flushList_ne items hitems,
              List.takeWhile_cons, List.dropWhile_cons, h2']
            simp only [Bool.false_eq_true, if_false, List.map_nil, List.append_nil]
            rw [specLines_cons, if_neg h1, if_neg h2]
            simp only [List.isEmpty_nil]
            by_cases h3 : Pdf.isLikelyHeading (jsTrim l) (jsTrim (rest.headD [])) true = true
            · rw [if_pos h3, if_pos h3, flushPara_nil, List.nil_append, ihE []]
              simp
            · rw [if_neg h3, if_neg h3, ihE ([] ++ [jsTrim l])]
              simp

/-- C4 counterexample: on the two consecutive list-item lines `- a` and
`- b`, the packaged-document raw-text reconstructor (`parseRawText`,
docx parser) emits two single-item list nodes, not one list node holding
both items as the claim requires for a maximal run of consecutive
list-item lines. -/
theorem parseRawText_two_list_lines_two_nodes :
    Docx.parseRawText ("- a\n- b".toList) =
      .root [.list false false [.listItem false [.paragraph [.text ("a".toList)]]],
             .list false false [.listItem false [.paragraph [.text ("b".toList)]]]] ∧
    (match Docx.parseRawText ("- a\n- b".toList) with
     | .root cs => cs.length
     | _ => 0) = 2 ∧ (2 : Nat) ≠ 1 :=
  ⟨rfl, rfl, by decide⟩

/-- C4 amended: the claim holds for the print-document reconstructor
(`parseExtractedText`, pdf parser): it equals a reference reconstruction in
which a maximal run of consecutive list-item lines is collected in one step
and emitted as a single list node, a blank line flushes the pending
paragraph joined with single spaces, and the list's ordered flag is
computed by `createList` from the marker pattern of its first collected
item.  (The docx raw-text path instead emits single-item lists, per the
counterexample.) -/
theorem parseExtractedText_grouped_spec :
    (∀ text, Pdf.parseExtractedText text = .root (Pdf.specLines (splitOnNl text) [])) ∧
    (∀ i is, Pdf.createList (i :: is) =
      .list (Pdf.orderedMarker i) false
        ((i :: is).map (fun item =>
          .listItem false [createParagraph (Pdf.stripNumbered (Pdf.stripBullet item))]))) := by
  constructor
  · intro text
    unfold Pdf.parseExtractedText
    rw [(plAux (splitOnNl text).length (splitOnNl text) le_rfl).1 []]
  · intro i is
    rfl

/-- Heading-depth rule exactly as the specification words it: all-caps
gives depth 1; otherwise a line starting with a numeric section prefix gets
the prefix's dot-count plus one capped at 6; otherwise the raw length
buckets under 25 → 1, under 40 → 2, under 60 → 3, else 4. -/
def specHeadingDepth (line : List Char) : Nat :=
  if line == jsToUpper line then 1
  else if !(Pdf.sectionMatch line).isEmpty then
    min ((Pdf.sectionMatch line).count '.' + 1) 6
  else if line.length < 25 then 1
  else if line.length < 40 then 2
  else if line.length < 60 then 3
  else 4

/-- Helper: the section-prefix match is non-empty exactly when the line
starts with a digit. -/
theorem sectionMatch_isEmpty (l : List Char) :
    (Pdf.sectionMatch l).isEmpty = (l.takeWhile Char.isDigit).isEmpty := by
  unfold Pdf.sectionMatch
  cases hd : l.takeWhile Char.isDigit with
  | nil => simp [hd]
  | cons a as => simp [hd]

/-- C5 counterexample: the docx reconstructor classifies the line
`1.1 Background` as a heading of depth 1 (its own rule: mixed case, length
under 30), while the claim's rule — shared by the pdf reconstructor —
assigns the numeric-section depth 1 dot + 1 = 2. -/
theorem parseRawText_section_heading_depth_one :
    Docx.parseRawText ("1.1 Background".toList) =
      .root [.heading 1 [.text ("1.1 Background".toList)]] ∧
    specHeadingDepth ("1.1 Background".toList) = 2 ∧ (1 : Nat) ≠ 2 :=
  ⟨rfl, rfl, by decide⟩

/-- C5 amended: the claimed depth rule (all-caps → 1; else numeric section
prefix's dot-count + 1 capped at 6; else length buckets <25→1, <40→2,
<60→3, else 4) holds for the print-document reconstructor's
`detectHeadingLevel`; the packaged-document reconstructor uses different
buckets, per the counterexample. -/
theorem detectHeadingLevel_matches_spec_rule :
    ∀ line, Pdf.detectHeadingLevel line = specHeadingDepth line := by
  intro line
  unfold Pdf.detectHeadingLevel specHeadingDepth
  rw [sectionMatch_isEmpty]

/-- Replacement for one maximal newline run under the global regex replace
`/\n{3,}/g → "\n\n"`: runs of three or more newlines become exactly two,
shorter runs are kept. -/
def collapseRun (n : Nat) : List Char :=
  if n ≥ 3 then ['\n', '\n'] else List.replicate n '\n'

/-- Scan of `ensureParagraphSpacing`: `n` counts the pending newline run,
emitted via `collapseRun` at each non-newline character and at the end. -/
def epsAux : Nat → List Char → List Char
| n, [] => collapseRun n
| n, c :: rest =>
  if c = '\n' then epsAux (n + 1) rest
  else collapseRun n ++ c :: epsAux 0 rest

/-- Model of `ensureParagraphSpacing` of the markdown parser
(`src/parsers/markdown.ts` lines 129-133): the single global replace
`text.replace(/\n{3,}/g, '\n\n')`, i.e. every maximal run of three or more
consecutive newline characters becomes exactly two newlines, and nothing
else changes. -/
def ensureParagraphSpacing (text : List Char) : List Char := epsAux 0 text

/-- Segmentation of a string into maximal newline runs and maximal
newline-free text chunks, for stating what the paragraph-spacing
normalization does per run. -/
inductive Seg
| nl (n : Nat)
| txt (s : List Char)

/-- Concatenate a segmentation back into a string. -/
def fromSegs : List Seg → List Char
| [] => []
| .nl n :: rest => List.replicate n '\n' ++ fromSegs rest
| .txt s :: rest => s ++ fromSegs rest

/-- Is the segment a newline run? -/
def segIsNl : Seg → Bool
| .nl _ => true
| .txt _ => false

/-- Segment validity: newline runs are non-empty; text chunks are non-empty
and contain no newline. -/
def segOk : Seg → Bool
| .nl n => decide (1 ≤ n)
| .txt s => !s.isEmpty && !s.contains '\n'

/-- Well-formed segmentation: valid segments, strictly alternating between
newline runs and text chunks. -/
def wfSegs : List Seg → Bool
| [] => true
| [s] => segOk s
| s :: s2 :: rest => segOk s && (segIsNl s != segIsNl s2) && wfSegs (s2 :: rest)

/-- Per-segment effect claimed for the normalization: a newline run of
three or more collapses to exactly two, everything else is unchanged. -/
def collapseSeg : Seg → Seg
| .nl n => .nl (if n ≥ 3 then 2 else n)
| .txt s => .txt s

/-- Helper: `collapseRun` emits the collapsed run. -/
theorem collapseRun_eq_replicate (n : Nat) :
    collapseRun n = List.replicate (if n ≥ 3 then 2 else n) '\n' := by
  unfold collapseRun
  split
  · rfl
  · rfl

/-- Helper: a leading newline run only grows the pending counter. -/
theorem epsAux_replicate (n : Nat) : ∀ (m : Nat) (l : List Char),
    epsAux m (List.replicate n '\n' ++ l) = epsAux (m + n) l := by
  induction n with
  | zero => intro m l; rfl
  | succ n ih =>
    intro m l
    show epsAux m ('\n' :: (List.replicate n '\n' ++ l)) = _
    rw [epsAux, if_pos rfl, ih (m + 1) l]
    congr 1
    omega

/-- Helper: a non-empty newline-free chunk flushes the pending run and is
copied verbatim. -/
theorem epsAux_chunk : ∀ (s : List Char), s ≠ [] → s.contains '\n' = false →
    ∀ (m : Nat) (l : List Char),
      epsAux m (s ++ l) = collapseRun m ++ (s ++ epsAux 0 l) := by
  intro s
  induction s with
  | nil => intro h; exact absurd rfl h
  | cons c s' ih =>
    intro _ hnn m l
    have hc : c ≠ '\n' := by
      intro hc
      rw [hc] at hnn
      simp [List.contains_cons] at hnn
    have hs' : s'.contains '\n' = false := by
      simp only [List.contains_cons, Bool.or_eq_false_iff] at hnn
      exact hnn.2
    show epsAux m (c :: (s' ++ l)) = _
    rw [epsAux, if_neg hc]
    cases s' with
    | nil => rfl
    | cons d s'' =>
      rw [ih (by simp) hs' 0 l]
      simp [collapseRun]

/-- Helper: each list segment head is valid. -/
theorem wfSegs_head (x : Seg) (r : List Seg) (h : wfSegs (x :: r) = true) : segOk x = true := by
  cases r with
  | nil => exact h
  | cons y r' =>
    simp only [wfSegs, Bool.and_eq_true] at h
    exact h.1.1

/-- Helper: the tail of a well-formed segmentation is well-formed. -/
theorem wfSegs_tail (x : Seg) (r : List Seg) (h : wfSegs (x :: r) = true) : wfSegs r = true := by
  cases r with
  | nil => rfl
  | cons y r' =>
    simp only [wfSegs, Bool.and_eq_true] at h
    exact h.2

/-- Helper: a newline-only replicate is removed by the non-newline filter. -/
theorem filter_nl_replicate (k : Nat) :
    (List.replicate k '\n').filter (fun c => c != '\n') = [] := by
  induction k with
  | zero => rfl
  | succ k ih => simp [List.replicate_succ, List.filter_cons, ih]

/-- Helper: the normalization scan changes only newlines. -/
theorem epsAux_filter : ∀ (l : List Char) (n : Nat),
    (epsAux n l).filter (fun c => c != '\n') = l.filter (fun c => c != '\n') := by
  intro l
  induction l with
  | nil =>
    intro n
    show (collapseRun n).filter _ = _
    rw [collapseRun_eq_replicate, filter_nl_replicate]
    rfl
  | cons c rest ih =>
    intro n
    by_cases hc : c = '\n'
    · subst hc
      rw [epsAux, if_pos rfl, ih (n + 1)]
      simp [List.filter_cons]
    · rw [epsAux, if_neg hc, List.filter_append, List.filter_cons, List.filter_cons,
        collapseRun_eq_replicate, filter_nl_replicate, List.nil_append, ih 0]

/-- Helper: the normalization acts on a well-formed segmentation segment by
segment, collapsing each newline run of three or more to two. -/
theorem epsSegs : ∀ (n : Nat) (segs : List Seg), segs.length ≤ n → wfSegs segs = true →
    epsAux 0 (fromSegs segs) = fromSegs (segs.map collapseSeg) := by
  intro n
  induction n with
  | zero =>
    intro segs hlen _
    have : segs = [] := by
      cases segs with
      | nil => rfl
      | cons a as => simp at hlen
    subst this
    rfl
  | succ n ih =>
    intro segs hlen hwf
    cases segs with
    | nil => rfl
    | cons x rest =>
      have hlen' : rest.length ≤ n := by
        simp only [List.length_cons] at hlen
        omega
      cases x with
      | txt s =>
        have hok : segOk (.txt s) = true := wfSegs_head _ _ hwf
        simp only [segOk, Bool.and_eq_true, Bool.not_eq_true'] at hok
        have hsne : s ≠ [] := by
          intro hnil
          rw [hnil] at hok
          simp at hok
        show epsAux 0 (s ++ fromSegs rest) = _
        rw [epsAux_chunk s hsne hok.2 0 (fromSegs rest),
          ih rest hlen' (wfSegs_tail _ _ hwf)]
        rfl
      | nl k =>
        show epsAux 0 (List.replicate k '\n' ++ fromSegs rest) = _
        rw [epsAux_replicate k 0 (fromSegs rest), Nat.zero_add]
        cases rest with
        | nil =>
          show epsAux k [] = _
          show collapseRun k = List.replicate (if k ≥ 3 then 2 else k) '\n' ++ fromSegs []
          rw [collapseRun_eq_replicate]
          simp [fromSegs]
        | cons y rest2 =>
          cases y with
          | nl m =>
            exfalso
            simp only [wfSegs, segIsNl, Bool.and_eq_true] at hwf
            simp at hwf
          | txt s =>
            have hwf2 : wfSegs (Seg.txt s :: rest2) = true := wfSegs_tail _ _ hwf
            have hok : segOk (.txt s) = true := wfSegs_head _ _ hwf2
            simp only [segOk, Bool.and_eq_true, Bool.not_eq_true'] at hok
            have hsne : s ≠ [] := by
              intro hnil
              rw [hnil] at hok
              simp at hok
            have hlen2 : rest2.length ≤ n := by
              simp only [List.length_cons] at hlen
              omega
            show epsAux k (s ++ fromSegs rest2) = _
            rw [epsAux_chunk s hsne hok.2 k (fromSegs rest2),
              ih rest2 hlen2 (wfSegs_tail _ _ hwf2), collapseRun_eq_replicate]
            rfl

/-- C7 counterexample: the input `a\n\n\n\nb` contains one maximal run of
three consecutive blank lines, yet the normalized output contains exactly
one blank line, not the two the claim requires: the source collapses runs
of three or more newline characters (not blank lines) to two newlines. -/
theorem ensureParagraphSpacing_three_blank_lines :
    ((splitOnNl ("a\n\n\n\nb".toList)).countP (fun ln => ln.isEmpty)) = 3 ∧
    ensureParagraphSpacing ("a\n\n\n\nb".toList) = ("a\n\nb".toList) ∧
    ((splitOnNl (ensureParagraphSpacing ("a\n\n\n\nb".toList))).countP
      (fun ln => ln.isEmpty)) = 1 ∧
    (1 : Nat) ≠ 2 :=
  ⟨rfl, rfl, rfl, by decide⟩

/-- C7 amended: during markup-parser pre-processing,
`ensureParagraphSpacing` collapses every maximal run of three or more
consecutive newline characters to exactly two newlines (so two or more
consecutive blank lines become a single blank line), keeps shorter newline
runs, and performs no other reflow: on every well-formed segmentation into
newline runs and newline-free chunks it acts segment by segment, and on any
input it preserves all non-newline characters in order. -/
theorem ensureParagraphSpacing_collapses_newline_runs :
    (∀ segs, wfSegs segs = true →
      ensureParagraphSpacing (fromSegs segs) = fromSegs (segs.map collapseSeg)) ∧
    (∀ l, (ensureParagraphSpacing l).filter (fun c => c != '\n') =
      l.filter (fun c => c != '\n')) := by
  constructor
  · intro segs hwf
    exact epsSegs segs.length segs le_rfl hwf
  · intro l
    exact epsAux_filter l 0

/-- C7 amended, witness: the segmentation `a`, four newlines, `b` is
well-formed and normalizes to `a`, two newlines, `b`. -/
theorem ensureParagraphSpacing_collapses_newline_runs_witness :
    wfSegs [.txt ("a".toList), .nl 4, .txt ("b".toList)] = true ∧
    ensureParagraphSpacing (fromSegs [.txt ("a".toList), .nl 4, .txt ("b".toList)]) =
      fromSegs ([.txt ("a".toList), .nl 4, .txt ("b".toList)].map collapseSeg) :=
  ⟨by decide, ensureParagraphSpacing_collapses_newline_runs.1 _ (by decide)⟩

/-- Double-quote character (named to keep quote characters out of the
literals below). -/
def quoteChar : Char := Char.ofNat 34

/-- Backslash character. -/
def backslashChar : Char := Char.ofNat 92

/-- Character class of the quoting regex in `escapeYamlValue`
(`src/renderers/markdown.ts` line 425), in the regex's order
`: # [ ] { } | > & * ! ? ,`. -/
def yamlSpecialChar (c : Char) : Bool :=
  c = ':' || c = '#' || c = '[' || c = ']' || c = Char.ofNat 0x7B || c = Char.ofNat 0x7D ||
  c = '|' || c = '>' || c = '&' || c = '*' || c = '!' || c = '?' || c = ','

/-- Model of `value.replace(/"/g, '\\"')`: every double quote becomes a
backslash-quote pair. -/
def escapeQuotes : List Char → List Char
| [] => []
| c :: rest => (if c = quoteChar then [backslashChar, quoteChar] else [c]) ++ escapeQuotes rest

/-- Model of `escapeYamlValue` (`src/renderers/markdown.ts` lines 423-429):
a value containing a special character, a newline, or starting with a space
is wrapped in double quotes with internal quotes escaped; anything else is
returned unchanged. -/
def escapeYamlValue (value : List Char) : List Char :=
  if value.any yamlSpecialChar || value.contains '\n' ||
     (match value with
      | c :: _ => c = ' '
      | [] => false) then
    quoteChar :: escapeQuotes value ++ [quoteChar]
  else value

/-- YAML-significant characters exactly as the specification lists them. -/
def specYamlSpecials : List Char :=
  [':', '#', '[', ']', Char.ofNat 0x7B, Char.ofNat 0x7D, '|', '>', '&', '*', '!', '?', ',']

/-- Quoting condition exactly as the specification words it: the value
contains a character of the listed set, or a newline, or a leading
space. -/
def specYamlNeedsQuoting (value : List Char) : Bool :=
  value.any (fun c => specYamlSpecials.any (fun d => c = d)) || value.contains '\n' ||
  (match value with
   | c :: _ => c = ' '
   | [] => false)

/-- Metadata values of `generateFrontmatter`: scalars, string sequences,
nested one-level objects, and null/undefined entries (skipped). -/
inductive MetaVal
| scalar (s : List Char)
| seq (items : List (List Char))
| nested (pairs : List (List Char × List Char))
| nullVal

/-- Lines emitted for one metadata entry by `generateFrontmatter`
(`src/renderers/markdown.ts` lines 398-414): null entries are skipped,
arrays become a `key:` header plus indented `- item` lines, nested objects
become a `key:` header plus indented `subkey: value` lines, scalars become
one `key: value` line; every emitted value goes through
`escapeYamlValue`. -/
def entryLines : (List Char × MetaVal) → List (List Char)
| (_, .nullVal) => []
| (key, .seq items) =>
  (key ++ [':']) :: items.map (fun item => ("  - ".toList) ++ escapeYamlValue item)
| (key, .nested pairs) =>
  (key ++ [':']) ::
    pairs.map (fun p => ("  ".toList) ++ p.1 ++ (": ".toList) ++ escapeYamlValue p.2)
| (key, .scalar v) => [key ++ (": ".toList) ++ escapeYamlValue v]

/-- Model of `generateFrontmatter` (`src/renderers/markdown.ts`
lines 395-418): the entry lines between `---` fences, joined by
newlines. -/
def generateFrontmatter (metadata : List (List Char × MetaVal)) : List Char :=
  List.intercalate ['\n']
    ((("---".toList) :: (metadata.map entryLines).flatten) ++ [("---".toList)])

/-- Helper: the source's regex class and the specification's listed set
test the same characters. -/
theorem yamlSpecialChar_eq_spec (c : Char) :
    yamlSpecialChar c = specYamlSpecials.any (fun d => c = d) := by
  rw [Bool.eq_iff_iff]
  simp [yamlSpecialChar, specYamlSpecials]
  tauto

/-- C8: a scalar front-matter value is double-quote-wrapped with internal
quotes escaped exactly when it contains a character of the specification's
YAML-significant set, a newline, or a leading space, and is emitted
unchanged otherwise; a scalar metadata entry emits exactly the line
`key: <escaped value>`. -/
theorem escapeYamlValue_quoting_rule :
    (∀ v, escapeYamlValue v =
      if specYamlNeedsQuoting v then quoteChar :: escapeQuotes v ++ [quoteChar] else v) ∧
    (∀ k v, entryLines (k, .scalar v) = [k ++ (": ".toList) ++ escapeYamlValue v]) := by
  constructor
  · intro v
    have hf : yamlSpecialChar = fun c => specYamlSpecials.any (fun d => c = d) :=
      funext yamlSpecialChar_eq_spec
    unfold escapeYamlValue specYamlNeedsQuoting
    rw [hf]
  · intro k v
    rfl

/-- Apostrophe character. -/
def aposChar : Char := Char.ofNat 39

/-- Single-character global replace: model of `String.replace` with a
one-character pattern and the `g` flag. -/
def replaceChar (c : Char) (repl : List Char) : List Char → List Char
| [] => []
| d :: rest => (if d = c then repl else [d]) ++ replaceChar c repl rest

/-- Model of `escapeHtml` (`src/renderers/html.ts` lines 299-306): five
sequential global replaces, `&` first so later replacements are not
re-escaped. -/
def escapeHtml (text : List Char) : List Char :=
  replaceChar aposChar ("&#039;".toList)
    (replaceChar quoteChar ("&quot;".toList)
      (replaceChar '>' ("&gt;".toList)
        (replaceChar '<' ("&lt;".toList)
          (replaceChar '&' ("&amp;".toList) text))))

/-- Children of a node (empty for value-carrying and void nodes). -/
def childrenOf : MdNode → List MdNode
| .root cs => cs
| .heading _ cs => cs
| .paragraph cs => cs
| .list _ _ cs => cs
| .listItem _ cs => cs
| .blockquote cs => cs
| .strong cs => cs
| .emphasis cs => cs
| .link _ cs => cs
| .text _ => []
| .code _ _ => []
| .inlineCode _ => []
| .image _ _ => []
| .thematicBreak => []
| .hardBreak => []

mutual

/-- Model of `extractText` (`src/renderers/html.ts` lines 282-294): a
node's own string value when it has one, otherwise the concatenation over
its children.  (The source tests `if (n.value)`, which treats the empty
string as absent; both readings give the same result because a value node
has no children and the empty join is empty.) -/
def extractText : MdNode → List Char
| .text v => v
| .code _ v => v
| .inlineCode v => v
| .root cs => extractTextList cs
| .heading _ cs => extractTextList cs
| .paragraph cs => extractTextList cs
| .list _ _ cs => extractTextList cs
| .listItem _ cs => extractTextList cs
| .blockquote cs => extractTextList cs
| .strong cs => extractTextList cs
| .emphasis cs => extractTextList cs
| .link _ cs => extractTextList cs
| .image _ _ => []
| .thematicBreak => []
| .hardBreak => []

/-- Concatenated extracted text of a node list. -/
def extractTextList : List MdNode → List Char
| [] => []
| c :: cs => extractText c ++ extractTextList cs

end

/-- Decimal rendering of a heading depth. -/
def natStr (n : Nat) : List Char := (Nat.repr n).toList

/-- Rendering of the optional `class="language-<lang>"` attribute. -/
def langClass : Option (List Char) → List Char
| some l => (" class=".toList) ++ [quoteChar] ++ ("language-".toList) ++ l ++ [quoteChar]
| none => []

/-- Join string fragments with newlines (`Array.prototype.join('\n')`). -/
def joinNl (parts : List (List Char)) : List Char := List.intercalate ['\n'] parts

mutual

/-- Model of the `visit` traversal of `astToHtml` (`src/renderers/html.ts`
lines 150-202): a preorder walk pushing one fragment per handled node kind
(heading, paragraph, list, code, blockquote, thematic break), every piece
of document text passing through `escapeHtml`.  The walk also descends into
children of already-rendered nodes, exactly as `unist-util-visit` does. -/
def visitParts : MdNode → List (List Char)
| .heading d cs =>
  (("<h".toList) ++ natStr d ++ ['>'] ++ escapeHtml (extractTextList cs) ++
    ("</h".toList) ++ natStr d ++ ['>']) :: visitPartsList cs
| .paragraph cs =>
  (("<p>".toList) ++ escapeHtml (extractTextList cs) ++ ("</p>".toList)) :: visitPartsList cs
| .list ordered _ cs =>
  (('<' :: (if ordered then ("ol".toList) else ("ul".toList)) ++ ['>', '\n']) ++
    joinNl (cs.map (fun c => ("<li>".toList) ++ escapeHtml (extractText c) ++ ("</li>".toList))) ++
    ('\n' :: '<' :: '/' :: (if ordered then ("ol".toList) else ("ul".toList)) ++ ['>'])) ::
    visitPartsList cs
| .code lang v =>
  [("<pre><code".toList) ++ langClass lang ++ ['>'] ++ escapeHtml v ++ ("</code></pre>".toList)]
| .blockquote cs =>
  (("<blockquote>".toList) ++ escapeHtml (extractTextList cs) ++ ("</blockquote>".toList)) ::
    visitPartsList cs
| .thematicBreak => [("<hr>".toList)]
| .root cs => visitPartsList cs
| .listItem _ cs => visitPartsList cs
| .strong cs => visitPartsList cs
| .emphasis cs => visitPartsList cs
| .link _ cs => visitPartsList cs
| .text _ => []
| .inlineCode _ => []
| .image _ _ => []
| .hardBreak => []

/-- Preorder fragment collection over a node list. -/
def visitPartsList : List MdNode → List (List Char)
| [] => []
| c :: cs => visitParts c ++ visitPartsList cs

end

/-- Removal of a wrapping `<p>` prefix (`replace(/^<p>/, '')`). -/
def stripLeadingP (l : List Char) : List Char :=
  if startsWithStr ("<p>".toList) l then l.drop 3 else l

/-- Removal of a wrapping `</p>` suffix (`replace(/<\/p>$/, '')`). -/
def stripTrailingP (l : List Char) : List Char :=
  if startsWithStr (("</p>".toList).reverse) l.reverse then (l.reverse.drop 4).reverse else l

mutual

/-- Model of `renderNode` (`src/renderers/html.ts` lines 220-277), the
fallback renderer: text, inline code, code, link targets and image
attributes go through `escapeHtml`; structural nodes wrap their rendered
children in tags; unknown kinds (including `root`) render as the empty
string. -/
def renderNode : MdNode → List Char
| .heading d cs =>
  ("<h".toList) ++ natStr d ++ ['>'] ++ renderNodeList cs ++ ("</h".toList) ++ natStr d ++ ['>']
| .paragraph cs => ("<p>".toList) ++ renderNodeList cs ++ ("</p>".toList)
| .text v => escapeHtml v
| .strong cs => ("<strong>".toList) ++ renderNodeList cs ++ ("</strong>".toList)
| .emphasis cs => ("<em>".toList) ++ renderNodeList cs ++ ("</em>".toList)
| .inlineCode v => ("<code>".toList) ++ escapeHtml v ++ ("</code>".toList)
| .code lang v =>
  ("<pre><code".toList) ++ langClass lang ++ ['>'] ++ escapeHtml v ++ ("</code></pre>".toList)
| .list ordered _ cs =>
  ('<' :: (if ordered then ("ol".toList) else ("ul".toList)) ++ ['>', '\n']) ++
    joinNl (renderNodeEach cs) ++
    ('\n' :: '<' :: '/' :: (if ordered then ("ol".toList) else ("ul".toList)) ++ ['>'])
| .listItem _ cs =>
  ("<li>".toList) ++ stripTrailingP (stripLeadingP (renderNodeList cs)) ++ ("</li>".toList)
| .blockquote cs => ("<blockquote>".toList) ++ renderNodeList cs ++ ("</blockquote>".toList)
| .link url cs =>
  ("<a href=".toList) ++ [quoteChar] ++ escapeHtml url ++ [quoteChar] ++ ['>'] ++
    renderNodeList cs ++ ("</a>".toList)
| .image url alt =>
  ("<img src=".toList) ++ [quoteChar] ++ escapeHtml url ++ [quoteChar] ++
    (" alt=".toList) ++ [quoteChar] ++ escapeHtml alt ++ [quoteChar] ++ ['>']
| .thematicBreak => ("<hr>".toList)
| .hardBreak => ("<br>".toList)
| .root _ => []

/-- Concatenated fallback rendering of a node list (`join('')`). -/
def renderNodeList : List MdNode → List Char
| [] => []
| c :: cs => renderNode c ++ renderNodeList cs

/-- Fallback rendering of each node of a list, kept separate for a
newline join. -/
def renderNodeEach : List MdNode → List (List Char)
| [] => []
| c :: cs => renderNode c :: renderNodeEach cs

end

/-- Model of `renderAstSimple` (`src/renderers/html.ts` lines 207-215). -/
def renderAstSimple (ast : MdNode) : List Char := joinNl (renderNodeEach (childrenOf ast))

/-- Model of `astToHtml` (`src/renderers/html.ts` lines 150-202): the
fragments of the visit traversal joined by newlines, or the fallback
renderer when the traversal produced no fragment. -/
def astToHtml (ast : MdNode) : List Char :=
  if (visitParts ast).isEmpty then renderAstSimple ast else joinNl (visitParts ast)

mutual

/-- Text content the visit traversal of `astToHtml` interpolates into its
fragments, collected in traversal order: exactly the `escapeHtml(…)`
call sites of `src/renderers/html.ts` lines 156-194. -/
def visitPieces : MdNode → List (List Char)
| .heading _ cs => escapeHtml (extractTextList cs) :: visitPiecesList cs
| .paragraph cs => escapeHtml (extractTextList cs) :: visitPiecesList cs
| .list _ _ cs => cs.map (fun c => escapeHtml (extractText c)) ++ visitPiecesList cs
| .code _ v => [escapeHtml v]
| .blockquote cs => escapeHtml (extractTextList cs) :: visitPiecesList cs
| .root cs => visitPiecesList cs
| .listItem _ cs => visitPiecesList cs
| .strong cs => visitPiecesList cs
| .emphasis cs => visitPiecesList cs
| .link _ cs => visitPiecesList cs
| .text _ => []
| .inlineCode _ => []
| .image _ _ => []
| .thematicBreak => []
| .hardBreak => []

/-- Interpolated text content over a node list, visit order. -/
def visitPiecesList : List MdNode → List (List Char)
| [] => []
| c :: cs => visitPieces c ++ visitPiecesList cs

end

mutual

/-- Text content the fallback renderer `renderNode` interpolates: the
`escapeHtml(…)` call sites of `src/renderers/html.ts` lines 220-277 (text
values, inline code, code blocks, link targets, image attributes).  For the
root it collects over the children, as `renderAstSimple` does. -/
def simplePieces : MdNode → List (List Char)
| .text v => [escapeHtml v]
| .inlineCode v => [escapeHtml v]
| .code _ v => [escapeHtml v]
| .link url cs => escapeHtml url :: simplePiecesList cs
| .image url alt => [escapeHtml url, escapeHtml alt]
| .root cs => simplePiecesList cs
| .heading _ cs => simplePiecesList cs
| .paragraph cs => simplePiecesList cs
| .strong cs => simplePiecesList cs
| .emphasis cs => simplePiecesList cs
| .list _ _ cs => simplePiecesList cs
| .listItem _ cs => simplePiecesList cs
| .blockquote cs => simplePiecesList cs
| .thematicBreak => []
| .hardBreak => []

/-- Interpolated text content of the fallback renderer over a node list. -/
def simplePiecesList : List MdNode → List (List Char)
| [] => []
| c :: cs => simplePieces c ++ simplePiecesList cs

end

/-- Rendered text content of `astToHtml`: the pieces of whichever path the
renderer takes (visit traversal, or the fallback when no fragment was
produced). -/
def renderedTextPieces (ast : MdNode) : List (List Char) :=
  if (visitParts ast).isEmpty then simplePieces ast else visitPieces ast

/-- Entity tails that may legitimately follow an ampersand in escaped
output. -/
def entityTails : List (List Char) :=
  ["amp;".toList, "lt;".toList, "gt;".toList, "quot;".toList, "#039;".toList]

/-- Every ampersand begins one of the five escape entities. -/
def ampOk : List Char → Bool
| [] => true
| c :: rest =>
  (if c = '&' then entityTails.any (fun e => startsWithStr e rest) else true) && ampOk rest

/-- Escaped-text predicate: no raw `<`, no raw `>`, and every `&` is the
head of an escape entity. -/
def htmlEscaped (l : List Char) : Bool :=
  !(l.contains '<') && !(l.contains '>') && ampOk l

/-- Per-character view of `escapeHtml`. -/
def esc1 (c : Char) : List Char :=
  if c = '&' then ("&amp;".toList)
  else if c = '<' then ("&lt;".toList)
  else if c = '>' then ("&gt;".toList)
  else if c = quoteChar then ("&quot;".toList)
  else if c = aposChar then ("&#039;".toList)
  else [c]

/-- Concatenation of the per-character escapes. -/
def escList : List Char → List Char
| [] => []
| c :: rest => esc1 c ++ escList rest

/-- Helper: a single-character global replace distributes over
concatenation. -/
theorem replaceChar_append (c : Char) (repl : List Char) :
    ∀ (a b : List Char), replaceChar c repl (a ++ b) = replaceChar c repl a ++ replaceChar c repl b := by
  intro a
  induction a with
  | nil => intro b; rfl
  | cons d rest ih =>
    intro b
    show (if d = c then repl else [d]) ++ replaceChar c repl (rest ++ b) = _
    rw [ih b]
    simp [replaceChar]

/-- Helper: the five sequential replaces of `escapeHtml` fuse into one
per-character pass, because no replacement string contains a character
that a later replace rewrites. -/
theorem escapeHtml_eq_escList : ∀ l, escapeHtml l = escList l := by
  intro l
  induction l with
  | nil => rfl
  | cons c rest ih =>
    unfold escapeHtml at ih ⊢
    have h1 : replaceChar '&' ("&amp;".toList) (c :: rest) =
        (if c = '&' then ("&amp;".toList) else [c]) ++ replaceChar '&' ("&amp;".toList) rest := rfl
    rw [h1, replaceChar_append, replaceChar_append, replaceChar_append, replaceChar_append, ih]
    show _ = esc1 c ++ escList rest
    congr 1
    by_cases h1 : c = '&'
    · subst h1
      decide
    · by_cases h2 : c = '<'
      · subst h2
        decide
      · by_cases h3 : c = '>'
        · subst h3
          decide
        · by_cases h4 : c = quoteChar
          · subst h4
            decide
          · by_cases h5 : c = aposChar
            · subst h5
              decide
            · simp [replaceChar, esc1, h1, h2, h3, h4, h5]

/-- Helper: membership distributes over concatenation. -/
theorem contains_append_eq (x : Char) (a b : List Char) :
    (a ++ b).contains x = (a.contains x || b.contains x) := by
  induction a with
  | nil => simp
  | cons d rest ih => simp [List.contains_cons, ih, Bool.or_assoc]

/-- Helper: no per-character escape contains a raw `<`. -/
theorem esc1_no_lt (c : Char) : (esc1 c).contains '<' = false := by
  by_cases h1 : c = '&'
  · subst h1; decide
  · by_cases h2 : c = '<'
    · subst h2; decide
    · by_cases h3 : c = '>'
      · subst h3; decide
      · by_cases h4 : c = quoteChar
        · subst h4; decide
        · by_cases h5 : c = aposChar
          · subst h5; decide
          · simp [esc1, h1, h2, h3, h4, h5, List.contains_cons]
            exact fun hc => h2 hc.symm

/-- Helper: no per-character escape contains a raw `>`. -/
theorem esc1_no_gt (c : Char) : (esc1 c).contains '>' = false := by
  by_cases h1 : c = '&'
  · subst h1; decide
  · by_cases h2 : c = '<'
    · subst h2; decide
    · by_cases h3 : c = '>'
      · subst h3; decide
      · by_cases h4 : c = quoteChar
        · subst h4; decide
        · by_cases h5 : c = aposChar
          · subst h5; decide
          · simp [esc1, h1, h2, h3, h4, h5, List.contains_cons]
            exact fun hc => h3 hc.symm

/-- Helper: prepending the `&amp;` entity preserves well-escapedness. -/
theorem ampOk_amp_entity (r : List Char) (h : ampOk r = true) :
    ampOk (('&' :: 'a' :: 'm' :: 'p' :: ';' :: []) ++ r) = true := by
  simp only [List.cons_append, List.nil_append]
  simp [ampOk, entityTails, startsWithStr, h]

/-- Helper: prepending the `&lt;` entity preserves well-escapedness. -/
theorem ampOk_lt_entity (r : List Char) (h : ampOk r = true) :
    ampOk (('&' :: 'l' :: 't' :: ';' :: []) ++ r) = true := by
  simp only [List.cons_append, List.nil_append]
  simp [ampOk, entityTails, startsWithStr, h]

/-- Helper: prepending the `&gt;` entity preserves well-escapedness. -/
theorem ampOk_gt_entity (r : List Char) (h : ampOk r = true) :
    ampOk (('&' :: 'g' :: 't' :: ';' :: []) ++ r) = true := by
  simp only [List.cons_append, List.nil_append]
  simp [ampOk, entityTails, startsWithStr, h]

/-- Helper: prepending the `&quot;` entity preserves well-escapedness. -/
theorem ampOk_quot_entity (r : List Char) (h : ampOk r = true) :
    ampOk (('&' :: 'q' :: 'u' :: 'o' :: 't' :: ';' :: []) ++ r) = true := by
  simp only [List.cons_append, List.nil_append]
  simp [ampOk, entityTails, startsWithStr, h]

/-- Helper: prepending the `&#039;` entity preserves well-escapedness. -/
theorem ampOk_apos_entity (r : List Char) (h : ampOk r = true) :
    ampOk (('&' :: '#' :: '0' :: '3' :: '9' :: ';' :: []) ++ r) = true := by
  simp only [List.cons_append, List.nil_append]
  simp [ampOk, entityTails, startsWithStr, h]

/-- Helper: every per-character escape preserves well-escapedness. -/
theorem esc1_ampOk (c : Char) (r : List Char) (h : ampOk r = true) :
    ampOk (esc1 c ++ r) = true := by
  by_cases h1 : c = '&'
  · subst h1
    exact ampOk_amp_entity r h
  · by_cases h2 : c = '<'
    · subst h2
      exact ampOk_lt_entity r h
    · by_cases h3 : c = '>'
      · subst h3
        exact ampOk_gt_entity r h
      · by_cases h4 : c = quoteChar
        · subst h4
          exact ampOk_quot_entity r h
        · by_cases h5 : c = aposChar
          · subst h5
            exact ampOk_apos_entity r h
          · have e : esc1 c = [c] := by simp [esc1, h1, h2, h3, h4, h5]
            rw [e]
            simp [ampOk, h1, h]

/-- Helper: the fused escape emits no raw `<`. -/
theorem escList_no_lt : ∀ l, (escList l).contains '<' = false := by
  intro l
  induction l with
  | nil => rfl
  | cons c rest ih =>
    rw [show escList (c :: rest) = esc1 c ++ escList rest from rfl, contains_append_eq,
      esc1_no_lt, ih]
    rfl

/-- Helper: the fused escape emits no raw `>`. -/
theorem escList_no_gt : ∀ l, (escList l).contains '>' = false := by
  intro l
  induction l with
  | nil => rfl
  | cons c rest ih =>
    rw [show escList (c :: rest) = esc1 c ++ escList rest from rfl, contains_append_eq,
      esc1_no_gt, ih]
    rfl

/-- Helper: every ampersand the fused escape emits heads an entity. -/
theorem escList_ampOk : ∀ l, ampOk (escList l) = true := by
  intro l
  induction l with
  | nil => rfl
  | cons c rest ih =>
    rw [show escList (c :: rest) = esc1 c ++ escList rest from rfl]
    exact esc1_ampOk c _ ih

/-- Helper: `escapeHtml` always produces escaped text. -/
theorem escapeHtml_escaped (s : List Char) : htmlEscaped (escapeHtml s) = true := by
  rw [escapeHtml_eq_escList]
  unfold htmlEscaped
  rw [escList_no_lt, escList_no_gt, escList_ampOk]
  rfl

/-- Helper: a node list's visit pieces are escaped when each node's are. -/
theorem visitPiecesList_all {cs : List MdNode}
    (h : ∀ c ∈ cs, (visitPieces c).all htmlEscaped = true) :
    (visitPiecesList cs).all htmlEscaped = true := by
  induction cs with
  | nil => rfl
  | cons c cs ih =>
    rw [show visitPiecesList (c :: cs) = visitPieces c ++ visitPiecesList cs from rfl,
      List.all_append, h c (List.mem_cons_self c cs),
      ih (fun d hd => h d (List.mem_cons_of_mem c hd))]
    rfl

/-- Helper: a node list's fallback pieces are escaped when each node's
are. -/
theorem simplePiecesList_all {cs : List MdNode}
    (h : ∀ c ∈ cs, (simplePieces c).all htmlEscaped = true) :
    (simplePiecesList cs).all htmlEscaped = true := by
  induction cs with
  | nil => rfl
  | cons c cs ih =>
    rw [show simplePiecesList (c :: cs) = simplePieces c ++ simplePiecesList cs from rfl,
      List.all_append, h c (List.mem_cons_self c cs),
      ih (fun d hd => h d (List.mem_cons_of_mem c hd))]
    rfl

/-- Helper: every piece the visit traversal interpolates is escaped. -/
theorem visitPieces_all : ∀ (n : Nat) (ast : MdNode), sizeOf ast ≤ n →
    (visitPieces ast).all htmlEscaped = true := by
  intro n
  induction n with
  | zero =>
    intro ast h
    exfalso
    cases ast <;> simp at h <;> omega
  | succ n ih =>
    intro ast h
    have hlist : ∀ (cs : List MdNode), sizeOf cs ≤ n + 1 →
        (visitPiecesList cs).all htmlEscaped = true := by
      intro cs hcs
      apply visitPiecesList_all
      intro c hc
      apply ih
      have := List.sizeOf_lt_of_mem hc
      omega
    cases ast with
    | heading d cs =>
      have hcs : (visitPiecesList cs).all htmlEscaped = true := by
        apply hlist
        simp at h
        omega
      rw [show visitPieces (.heading d cs) =
          escapeHtml (extractTextList cs) :: visitPiecesList cs from rfl, List.all_cons,
        escapeHtml_escaped, hcs]
      rfl
    | paragraph cs =>
      have hcs : (visitPiecesList cs).all htmlEscaped = true := by
        apply hlist
        simp at h
        omega
      rw [show visitPieces (.paragraph cs) =
          escapeHtml (extractTextList cs) :: visitPiecesList cs from rfl, List.all_cons,
        escapeHtml_escaped, hcs]
      rfl
    | blockquote cs =>
      have hcs : (visitPiecesList cs).all htmlEscaped = true := by
        apply hlist
        simp at h
        omega
      rw [show visitPieces (.blockquote cs) =
          escapeHtml (extractTextList cs) :: visitPiecesList cs from rfl, List.all_cons,
        escapeHtml_escaped, hcs]
      rfl
    | list ordered spread cs =>
      have hcs : (visitPiecesList cs).all htmlEscaped = true := by
        apply hlist
        simp at h
        omega
      have hm : (cs.map (fun c => escapeHtml (extractText c))).all htmlEscaped = true := by
        apply List.all_eq_true.mpr
        intro x hx
        obtain ⟨c, -, rfl⟩ := List.mem_map.mp hx
        exact escapeHtml_escaped (extractText c)
      rw [show visitPieces (.list ordered spread cs) =
          cs.map (fun c => escapeHtml (extractText c)) ++ visitPiecesList cs from rfl,
        List.all_append, hm, hcs]
      rfl
    | code lang v =>
      rw [show visitPieces (.code lang v) = [escapeHtml v] from rfl, List.all_cons,
        escapeHtml_escaped]
      rfl
    | root cs =>
      apply hlist
      simp at h
      omega
    | listItem spread cs =>
      apply hlist
      simp at h
      omega
    | strong cs =>
      apply hlist
      simp at h
      omega
    | emphasis cs =>
      apply hlist
      simp at h
      omega
    | link url cs =>
      apply hlist
      simp at h
      omega
    | text v => rfl
    | inlineCode v => rfl
    | image url alt => rfl
    | thematicBreak => rfl
    | hardBreak => rfl

/-- Helper: every piece the fallback renderer interpolates is escaped. -/
theorem simplePieces_all : ∀ (n : Nat) (ast : MdNode), sizeOf ast ≤ n →
    (simplePieces ast).all htmlEscaped = true := by
  intro n
  induction n with
  | zero =>
    intro ast h
    exfalso
    cases ast <;> simp at h <;> omega
  | succ n ih =>
    intro ast h
    have hlist : ∀ (cs : List MdNode), sizeOf cs ≤ n + 1 →
        (simplePiecesList cs).all htmlEscaped = true := by
      intro cs hcs
      apply simplePiecesList_all
      intro c hc
      apply ih
      have := List.sizeOf_lt_of_mem hc
      omega
    cases ast with
    | text v =>
      rw [show simplePieces (.text v) = [escapeHtml v] from rfl, List.all_cons, escapeHtml_escaped]
      rfl
    | inlineCode v =>
      rw [show simplePieces (.inlineCode v) = [escapeHtml v] from rfl, List.all_cons,
        escapeHtml_escaped]
      rfl
    | code lang v =>
      rw [show simplePieces (.code lang v) = [escapeHtml v] from rfl, List.all_cons,
        escapeHtml_escaped]
      rfl
    | link url cs =>
      have hcs : (simplePiecesList cs).all htmlEscaped = true := by
        apply hlist
        simp at h
        omega
      rw [show simplePieces (.link url cs) = escapeHtml url :: simplePiecesList cs from rfl,
        List.all_cons, escapeHtml_escaped, hcs]
      rfl
    | image url alt =>
      rw [show simplePieces (.image url alt) = [escapeHtml url, escapeHtml alt] from rfl]
      simp [escapeHtml_escaped]
    | root cs =>
      apply hlist
      simp at h
      omega
    | heading d cs =>
      apply hlist
      simp at h
      omega
    | paragraph cs =>
      apply hlist
      simp at h
      omega
    | strong cs =>
      apply hlist
      simp at h
      omega
    | emphasis cs =>
      apply hlist
      simp at h
      omega
    | list ordered spread cs =>
      apply hlist
      simp at h
      omega
    | listItem spread cs =>
      apply hlist
      simp at h
      omega
    | blockquote cs =>
      apply hlist
      simp at h
      omega
    | thematicBreak => rfl
    | hardBreak => rfl

/-- C9: every piece of document text the HTML renderer interpolates into
its output — on the visit path and on the fallback path alike — satisfies
the escaping invariant: it contains no raw `<`, no raw `>`, and every `&`
in it is the head of one of the escape entities (`&amp;`, `&lt;`, `&gt;`,
`&quot;`, `&#039;`), so the characters `<`, `>`, `&` of the document's
text nodes never reach the output unescaped. -/
theorem renderedText_escaped : ∀ ast, (renderedTextPieces ast).all htmlEscaped = true := by
  intro ast
  unfold renderedTextPieces
  split
  · exact simplePieces_all (sizeOf ast) ast le_rfl
  · exact visitPieces_all (sizeOf ast) ast le_rfl

/-- JSON data model (ECMA-404 values), the intermediate representation of
`JSON.parse(JSON.stringify(…))`.  The numbers occurring in a document tree
are the heading depths, so naturals suffice. -/
inductive Json
| null
| bool (b : Bool)
| num (n : Nat)
| str (s : List Char)
| arr (items : List Json)
| obj (fields : List (List Char × Json))

mutual

/-- View of a document tree node as the JSON object `JSON.stringify`
serializes: one field per own property of the mdast node shapes this
codebase constructs (`type`, then the variant's attributes, then
`children`; `code.lang` and `code.meta` may be null; `break` is the mdast
type tag for a hard line break). -/
def astToJson : MdNode → Json
| .root cs =>
  .obj [(("type".toList), .str ("root".toList)),
        (("children".toList), .arr (astToJsonList cs))]
| .heading d cs =>
  .obj [(("type".toList), .str ("heading".toList)), (("depth".toList), .num d),
        (("children".toList), .arr (astToJsonList cs))]
| .paragraph cs =>
  .obj [(("type".toList), .str ("paragraph".toList)),
        (("children".toList), .arr (astToJsonList cs))]
| .text v => .obj [(("type".toList), .str ("text".toList)), (("value".toList), .str v)]
| .list o s cs =>
  .obj [(("type".toList), .str ("list".toList)), (("ordered".toList), .bool o),
        (("spread".toList), .bool s), (("children".toList), .arr (astToJsonList cs))]
| .listItem s cs =>
  .obj [(("type".toList), .str ("listItem".toList)), (("spread".toList), .bool s),
        (("children".toList), .arr (astToJsonList cs))]
| .code lang v =>
  .obj [(("type".toList), .str ("code".toList)),
        (("lang".toList), match lang with
          | some l => .str l
          | none => .null),
        (("meta".toList), .null), (("value".toList), .str v)]
| .blockquote cs =>
  .obj [(("type".toList), .str ("blockquote".toList)),
        (("children".toList), .arr (astToJsonList cs))]
| .thematicBreak => .obj [(("type".toList), .str ("thematicBreak".toList))]
| .strong cs =>
  .obj [(("type".toList), .str ("strong".toList)),
        (("children".toList), .arr (astToJsonList cs))]
| .emphasis cs =>
  .obj [(("type".toList), .str ("emphasis".toList)),
        (("children".toList), .arr (astToJsonList cs))]
| .inlineCode v =>
  .obj [(("type".toList), .str ("inlineCode".toList)), (("value".toList), .str v)]
| .link url cs =>
  .obj [(("type".toList), .str ("link".toList)), (("url".toList), .str url),
        (("children".toList), .arr (astToJsonList cs))]
| .image url alt =>
  .obj [(("type".toList), .str ("image".toList)), (("url".toList), .str url),
        (("alt".toList), .str alt)]
| .hardBreak => .obj [(("type".toList), .str ("break".toList))]

/-- Serialization of a node list. -/
def astToJsonList : List MdNode → List Json
| [] => []
| c :: cs => astToJson c :: astToJsonList cs

end

mutual

/-- Reading a typed document tree node back out of its parsed JSON object:
the `as Root` cast of `cloneAst` made explicit.  The decoder matches the
exact object shapes `astToJson` serializes (field order is preserved by
`JSON.stringify`/`JSON.parse`); anything else decodes to `none`. -/
def jsonToAst : Json → Option MdNode
| .obj [(k1, .str t), (k2, .arr items)] =>
  if k1 = ("type".toList) ∧ k2 = ("children".toList) then
    match jsonToAstList items with
    | some cs =>
      if t = ("root".toList) then some (.root cs)
      else if t = ("paragraph".toList) then some (.paragraph cs)
      else if t = ("blockquote".toList) then some (.blockquote cs)
      else if t = ("strong".toList) then some (.strong cs)
      else if t = ("emphasis".toList) then some (.emphasis cs)
      else none
    | none => none
  else none
| .obj [(k1, .str t), (k2, .num d), (k3, .arr items)] =>
  if k1 = ("type".toList) ∧ t = ("heading".toList) ∧ k2 = ("depth".toList) ∧
     k3 = ("children".toList) then
    match jsonToAstList items with
    | some cs => some (.heading d cs)
    | none => none
  else none
| .obj [(k1, .str t), (k2, .str v)] =>
  if k1 = ("type".toList) ∧ k2 = ("value".toList) ∧ t = ("text".toList) then some (.text v)
  else if k1 = ("type".toList) ∧ k2 = ("value".toList) ∧ t = ("inlineCode".toList) then
    some (.inlineCode v)
  else none
| .obj [(k1, .str t), (k2, .bool o), (k3, .bool s), (k4, .arr items)] =>
  if k1 = ("type".toList) ∧ t = ("list".toList) ∧ k2 = ("ordered".toList) ∧
     k3 = ("spread".toList) ∧ k4 = ("children".toList) then
    match jsonToAstList items with
    | some cs => some (.list o s cs)
    | none => none
  else none
| .obj [(k1, .str t), (k2, .bool s), (k3, .arr items)] =>
  if k1 = ("type".toList) ∧ t = ("listItem".toList) ∧ k2 = ("spread".toList) ∧
     k3 = ("children".toList) then
    match jsonToAstList items with
    | some cs => some (.listItem s cs)
    | none => none
  else none
| .obj [(k1, .str t), (k2, .str l), (k3, .null), (k4, .str v)] =>
  if k1 = ("type".toList) ∧ t = ("code".toList) ∧ k2 = ("lang".toList) ∧
     k3 = ("meta".toList) ∧ k4 = ("value".toList) then some (.code (some l) v)
  else none
| .obj [(k1, .str t), (k2, .null), (k3, .null), (k4, .str v)] =>
  if k1 = ("type".toList) ∧ t = ("code".toList) ∧ k2 = ("lang".toList) ∧
     k3 = ("meta".toList) ∧ k4 = ("value".toList) then some (.code none v)
  else none
| .obj [(k1, .str t)] =>
  if k1 = ("type".toList) ∧ t = ("thematicBreak".toList) then some .thematicBreak
  else if k1 = ("type".toList) ∧ t = ("break".toList) then some .hardBreak
  else none
| .obj [(k1, .str t), (k2, .str url), (k3, .arr items)] =>
  if k1 = ("type".toList) ∧ t = ("link".toList) ∧ k2 = ("url".toList) ∧
     k3 = ("children".toList) then
    match jsonToAstList items with
    | some cs => some (.link url cs)
    | none => none
  else none
| .obj [(k1, .str t), (k2, .str url), (k3, .str alt)] =>
  if k1 = ("type".toList) ∧ t = ("image".toList) ∧ k2 = ("url".toList) ∧
     k3 = ("alt".toList) then some (.image url alt)
  else none
| _ => none

/-- Element-wise decoding of a JSON array into a node list. -/
def jsonToAstList : List Json → Option (List MdNode)
| [] => some []
| j :: rest =>
  match jsonToAst j, jsonToAstList rest with
  | some n, some ns => some (n :: ns)
  | _, _ => none

end

/-- Model of `cloneAst` (`src/core/ast.ts` lines 167-169),
`JSON.parse(JSON.stringify(ast)) as Root`: serialize the tree to the JSON
data model and read it back (the string layer of `JSON.stringify` /
`JSON.parse` is a faithful inverse pair on acyclic JSON values and is
modelled by the `Json` representation itself).  The `getD` default is the
unreachable decode-failure branch of the unchecked cast. -/
def cloneAst (ast : MdNode) : MdNode := (jsonToAst (astToJson ast)).getD (.root [])

/-- Helper: element-wise decoding inverts element-wise serialization. -/
theorem jsonToAstList_map {cs : List MdNode}
    (h : ∀ c ∈ cs, jsonToAst (astToJson c) = some c) :
    jsonToAstList (astToJsonList cs) = some cs := by
  induction cs with
  | nil => rfl
  | cons c cs ih =>
    show (match jsonToAst (astToJson c), jsonToAstList (astToJsonList cs) with
      | some n, some ns => some (n :: ns)
      | _, _ => none) = some (c :: cs)
    rw [h c (List.mem_cons_self c cs), ih (fun d hd => h d (List.mem_cons_of_mem c hd))]

/-- Helper: decoding inverts serialization on every document tree node. -/
theorem jsonToAst_astToJson : ∀ (n : Nat) (t : MdNode), sizeOf t ≤ n →
    jsonToAst (astToJson t) = some t := by
  intro n
  induction n with
  | zero =>
    intro t h
    exfalso
    cases t <;> simp at h <;> omega
  | succ n ih =>
    intro t h
    have hlist : ∀ (cs : List MdNode), sizeOf cs ≤ n + 1 →
        jsonToAstList (astToJsonList cs) = some cs := by
      intro cs hcs
      apply jsonToAstList_map
      intro c hc
      apply ih
      have := List.sizeOf_lt_of_mem hc
      omega
    cases t with
    | root cs =>
      have e : jsonToAst (astToJson (.root cs)) =
          (match jsonToAstList (astToJsonList cs) with
           | some cs' => some (MdNode.root cs')
           | none => none) := rfl
      rw [e, hlist cs (by simp at h; omega)]
    | heading d cs =>
      have e : jsonToAst (astToJson (.heading d cs)) =
          (match jsonToAstList (astToJsonList cs) with
           | some cs' => some (MdNode.heading d cs')
           | none => none) := rfl
      rw [e, hlist cs (by simp at h; omega)]
    | paragraph cs =>
      have e : jsonToAst (astToJson (.paragraph cs)) =
          (match jsonToAstList (astToJsonList cs) with
           | some cs' => some (MdNode.paragraph cs')
           | none => none) := rfl
      rw [e, hlist cs (by simp at h; omega)]
    | list o s cs =>
      have e : jsonToAst (astToJson (.list o s cs)) =
          (match jsonToAstList (astToJsonList cs) with
           | some cs' => some (MdNode.list o s cs')
           | none => none) := rfl
      rw [e, hlist cs (by simp at h; omega)]
    | listItem s cs =>
      have e : jsonToAst (astToJson (.listItem s cs)) =
          (match jsonToAstList (astToJsonList cs) with
           | some cs' => some (MdNode.listItem s cs')
           | none => none) := rfl
      rw [e, hlist cs (by simp at h; omega)]
    | blockquote cs =>
      have e : jsonToAst (astToJson (.blockquote cs)) =
          (match jsonToAstList (astToJsonList cs) with
           | some cs' => some (MdNode.blockquote cs')
           | none => none) := rfl
      rw [e, hlist cs (by simp at h; omega)]
    | strong cs =>
      have e : jsonToAst (astToJson (.strong cs)) =
          (match jsonToAstList (astToJsonList cs) with
           | some cs' => some (MdNode.strong cs')
           | none => none) := rfl
      rw [e, hlist cs (by simp at h; omega)]
    | emphasis cs =>
      have e : jsonToAst (astToJson (.emphasis cs)) =
          (match jsonToAstList (astToJsonList cs) with
           | some cs' => some (MdNode.emphasis cs')
           | none => none) := rfl
      rw [e, hlist cs (by simp at h; omega)]
    | link url cs =>
      have e : jsonToAst (astToJson (.link url cs)) =
          (match jsonToAstList (astToJsonList cs) with
           | some cs' => some (MdNode.link url cs')
           | none => none) := rfl
      rw [e, hlist cs (by simp at h; omega)]
    | text v => rfl
    | inlineCode v => rfl
    | image url alt => rfl
    | thematicBreak => rfl
    | hardBreak => rfl
    | code lang v =>
      cases lang with
      | none => rfl
      | some l => rfl

/-- C10: `cloneAst` is the identity on document tree values — the
serialize-and-parse round trip reproduces every node variant, attribute and
child ordering of its input. -/
theorem cloneAst_id : ∀ t : MdNode, cloneAst t = t := by
  intro t
  unfold cloneAst
  rw [jsonToAst_astToJson (sizeOf t) t le_rfl]
  rfl
